import Mathlib

/-
Verification of the reference-counted handle idioms in
`PatternsAndIdioms/CountedBody/CountedBody.cpp` (share count embedded in the
payload) and `PatternsAndIdioms/DetachedCountedBody/DetachedCountedBody.cpp`
(share count in a separate allocation).

The two C++ classes are modelled with an explicit heap: addresses are `Nat`,
with `0` playing the role of `nullptr` (allocation starts at address `1`, and
`delete` on a null pointer is a no-op, as in C++).  Memory cells persist after
deallocation — an `allocated` flag records liveness and a `deallocs` counter
records how many times `delete` ran on an address — so dangling pointers,
double frees and writes through freed pointers are all expressible, which the
literal source needs.  `int64_t` share counts are modelled as `Int`; every
count reachable in a trace is bounded by the number of handles, far from the
64-bit wrap, so overflow is immaterial here.

Handle-level operations are also given a small-step trace semantics over a
store (list) of live `Representation` objects, driven by an operation
language `Op`.  The assignment step mirrors C++ reference semantics: when a
representation is assigned from itself (`this == &another_representation`),
the reads of `another_representation`'s fields observe the writes that
`DecrementReferenceCount` already performed on `this`.
-/

set_option maxHeartbeats 1000000

namespace CleanCode

/-- Pointwise store update: `setF f p v` is the store `f` with address `p`
remapped to `v`. -/
def setF {α : Type} (f : Nat → α) (p : Nat) (v : α) : Nat → α :=
  fun q => if q = p then v else f q

/-- Shared operation language for driving handle traces.  `fresh` is the
default constructor, `copy j` the copy constructor from the handle at index
`j`, `assign i j` is `reps[i] = reps[j]` via `operator=`, and `destroy i`
runs the destructor of the handle at index `i` and removes it from the
store.  Operations with out-of-range indices leave the state unchanged. -/
inductive Op where
  | fresh : Op
  | copy : Nat → Op
  | assign : Nat → Nat → Op
  | destroy : Nat → Op
deriving DecidableEq

/-- True exactly for the `copy` and `destroy` operations. -/
def Op.copyOrDestroy : Op → Bool
  | .copy _ => true
  | .destroy _ => true
  | _ => false

namespace CountedBody

/-- Heap for the embedded-count variant: `count q` is the
`reference_count` field of the `Implementation` object at address `q`
(the `Implementation` constructor initializes it to 0), `allocated q`
records whether that object is currently allocated, and `deallocs q`
counts how many times `delete` ran on address `q`. -/
structure Heap where
  next : Nat
  count : Nat → Int
  allocated : Nat → Bool
  deallocs : Nat → Nat

/-- `class Representation` of CountedBody.cpp: a single
`Implementation* implementation` member, modelled as an address. -/
structure Representation where
  implementation : Nat
deriving DecidableEq

/-- Initial heap: nothing allocated, allocation starts at address 1
(0 is `nullptr`). -/
def emptyHeap : Heap := ⟨1, fun _ => 0, fun _ => false, fun _ => 0⟩

/-- `new Implementation ()`: allocates a fresh cell whose
`reference_count` is 0 (per the `Implementation` constructor) and returns
its address. -/
def newImplementation (H : Heap) : Heap × Nat :=
  ({ H with
      next := H.next + 1
      count := setF H.count H.next 0
      allocated := setF H.allocated H.next true },
   H.next)

/-- `delete this->implementation`: a no-op on `nullptr`, otherwise marks
the cell deallocated and bumps its deallocation counter.  The stored count
value persists (raw memory is not scrubbed). -/
def deleteImplementation (H : Heap) (p : Nat) : Heap :=
  if p = 0 then H
  else
    { H with
        allocated := setF H.allocated p false
        deallocs := setF H.deallocs p (H.deallocs p + 1) }

/-- `Representation::IncrementReferenceCount`:
`++this->implementation->reference_count`. -/
def IncrementReferenceCount (H : Heap) (r : Representation) : Heap :=
  { H with
      count := setF H.count r.implementation (H.count r.implementation + 1) }

/-- `Representation::DecrementReferenceCount` (CountedBody.cpp lines
95–107): decrement, early-return while the count is still positive,
otherwise `delete` the implementation.  Source line 106 reads
`this->implementation == nullptr;` — an equality comparison used as an
expression statement, not an assignment — so the pointer member is not
modified on either path; the returned representation is `r` unchanged. -/
def DecrementReferenceCount (H : Heap) (r : Representation) :
    Heap × Representation :=
  let H1 : Heap :=
    { H with
        count := setF H.count r.implementation (H.count r.implementation - 1) }
  if 0 < H1.count r.implementation then (H1, r)
  else (deleteImplementation H1 r.implementation, r)

/-- `Representation::Representation ()`: allocate a fresh
`Implementation` (count 0) and increment, leaving the new group's count
at 1. -/
def constructFresh (H : Heap) : Heap × Representation :=
  let p := (newImplementation H).2
  let H1 := (newImplementation H).1
  let r : Representation := ⟨p⟩
  (IncrementReferenceCount H1 r, r)

/-- `Representation::Representation (const Representation&)`: alias the
other handle's implementation pointer and increment its count. -/
def constructFromCopy (H : Heap) (other : Representation) :
    Heap × Representation :=
  let r : Representation := ⟨other.implementation⟩
  (IncrementReferenceCount H r, r)

/-- `Representation::operator=` (CountedBody.cpp lines 76–83) for the case
where `another_representation` is a distinct object: decrement this
handle's count, re-alias, increment the new group's count. -/
def assign (H : Heap) (r other : Representation) : Heap × Representation :=
  let H1 := (DecrementReferenceCount H r).1
  let r1 := (DecrementReferenceCount H r).2
  let r2 : Representation := { r1 with implementation := other.implementation }
  (IncrementReferenceCount H1 r2, r2)

/-- `Representation::~Representation`: just `DecrementReferenceCount`. -/
def destroy (H : Heap) (r : Representation) : Heap :=
  (DecrementReferenceCount H r).1

/-- Trace state: the heap plus the store of live handles. -/
structure State where
  heap : Heap
  reps : List Representation

/-- One trace step.  The `assign i j` case mirrors C++ reference
semantics: `another_representation` is read after `DecrementReferenceCount`
has run on `this`, so when `j = i` the read observes the (here unchanged)
fields of the updated handle. -/
def step (st : State) (op : Op) : State :=
  match op with
  | .fresh =>
      let p := constructFresh st.heap
      ⟨p.1, st.reps ++ [p.2]⟩
  | .copy j =>
      match st.reps[j]? with
      | some rj =>
          let p := constructFromCopy st.heap rj
          ⟨p.1, st.reps ++ [p.2]⟩
      | none => st
  | .assign i j =>
      match st.reps[i]?, st.reps[j]? with
      | some ri, some rj0 =>
          let H1 := (DecrementReferenceCount st.heap ri).1
          let ri1 := (DecrementReferenceCount st.heap ri).2
          let rj1 := if j = i then ri1 else rj0
          let ri2 : Representation := { ri1 with implementation := rj1.implementation }
          ⟨IncrementReferenceCount H1 ri2, st.reps.set i ri2⟩
      | _, _ => st
  | .destroy i =>
      match st.reps[i]? with
      | some ri =>
          ⟨(DecrementReferenceCount st.heap ri).1, st.reps.eraseIdx i⟩
      | none => st

/-- Empty initial state. -/
def init : State := ⟨emptyHeap, []⟩

/-- Run a trace from the initial state. -/
def run (ops : List Op) : State := ops.foldl step init

/-- Number of live handles whose implementation pointer is `a`. -/
def numRefs (reps : List Representation) (a : Nat) : Nat :=
  reps.countP (fun r => r.implementation == a)

end CountedBody

namespace DetachedCountedBody

/-- Heap for the detached-count variant.  `LibraryObject` payloads and
`int64_t` count cells live in two disjoint address spaces that share the
allocation counter `next`: the group created by the n-th fresh
construction has payload address n and count-cell address n.  `cntVal q`
is the value stored in count cell `q`; the `objAllocated`/`cntAllocated`
flags and the `objDeallocs`/`cntDeallocs` counters track each space's
allocation status and `delete` count. -/
structure Heap where
  next : Nat
  objAllocated : Nat → Bool
  objDeallocs : Nat → Nat
  cntVal : Nat → Int
  cntAllocated : Nat → Bool
  cntDeallocs : Nat → Nat

/-- `class Representation` of DetachedCountedBody.cpp:
`LibraryObject* implementation` and `int64_t* reference_count`, modelled
as addresses (0 is `nullptr`). -/
structure Representation where
  implementation : Nat
  reference_count : Nat
deriving DecidableEq

/-- Initial heap: nothing allocated, allocation starts at address 1. -/
def emptyHeap : Heap := ⟨1, fun _ => false, fun _ => 0, fun _ => 0, fun _ => false, fun _ => 0⟩

/-- `delete this->implementation`: no-op on `nullptr`, otherwise frees the
payload object at `p`. -/
def deleteObj (H : Heap) (p : Nat) : Heap :=
  if p = 0 then H
  else
    { H with
        objAllocated := setF H.objAllocated p false
        objDeallocs := setF H.objDeallocs p (H.objDeallocs p + 1) }

/-- `delete this->reference_count`: no-op on `nullptr`, otherwise frees
the count cell at `p` (the stored value persists in raw memory). -/
def deleteCnt (H : Heap) (p : Nat) : Heap :=
  if p = 0 then H
  else
    { H with
        cntAllocated := setF H.cntAllocated p false
        cntDeallocs := setF H.cntDeallocs p (H.cntDeallocs p + 1) }

/-- `Representation::IncrementReferenceCount`:
`++*(this->reference_count)`. -/
def IncrementReferenceCount (H : Heap) (r : Representation) : Heap :=
  { H with
      cntVal := setF H.cntVal r.reference_count (H.cntVal r.reference_count + 1) }

/-- `Representation::DecrementReferenceCount` (DetachedCountedBody.cpp
lines 104–119): decrement the shared cell, early-return while it is still
positive; otherwise `delete` the payload, set `implementation` to null,
`delete` the count cell, and then (source line 118) assign
`this->implementation = nullptr` a second time — `this->reference_count`
is never cleared and keeps pointing at the freed cell. -/
def DecrementReferenceCount (H : Heap) (r : Representation) :
    Heap × Representation :=
  let H1 : Heap :=
    { H with
        cntVal := setF H.cntVal r.reference_count (H.cntVal r.reference_count - 1) }
  if 0 < H1.cntVal r.reference_count then (H1, r)
  else
    let H2 := deleteObj H1 r.implementation
    let r1 : Representation := { r with implementation := 0 }
    let H3 := deleteCnt H2 r1.reference_count
    let r2 : Representation := { r1 with implementation := 0 }
    (H3, r2)

/-- `Representation::Representation ()`: allocate a fresh `LibraryObject`
and a separate count cell initialized to `1` (`new int64_t (1)`). -/
def constructFresh (H : Heap) : Heap × Representation :=
  let a := H.next
  ({ H with
      next := a + 1
      objAllocated := setF H.objAllocated a true
      cntVal := setF H.cntVal a 1
      cntAllocated := setF H.cntAllocated a true },
   ⟨a, a⟩)

/-- `Representation::Representation (const Representation&)`: alias both
pointers from the other handle, then increment the shared count. -/
def constructFromCopy (H : Heap) (other : Representation) :
    Heap × Representation :=
  let r : Representation := ⟨other.implementation, other.reference_count⟩
  (IncrementReferenceCount H r, r)

/-- `Representation::operator=` (DetachedCountedBody.cpp lines 73–82) for
the case where `another_representation` is a distinct object: decrement,
re-alias both pointers, increment the new group's count. -/
def assign (H : Heap) (r other : Representation) : Heap × Representation :=
  let H1 := (DecrementReferenceCount H r).1
  let r1 := (DecrementReferenceCount H r).2
  let r2 : Representation :=
    { r1 with
        implementation := other.implementation
        reference_count := other.reference_count }
  (IncrementReferenceCount H1 r2, r2)

/-- `Representation::~Representation`: just `DecrementReferenceCount`. -/
def destroy (H : Heap) (r : Representation) : Heap :=
  (DecrementReferenceCount H r).1

/-- Trace state: heap plus the store of live handles. -/
structure State where
  heap : Heap
  reps : List Representation

/-- One trace step.  In `assign i j` the two member reads of
`another_representation` happen after `DecrementReferenceCount` has
mutated `this`, and the first member write happens before the second
member read; when `j = i` (`this == &another_representation`) each read
therefore observes the writes performed so far, which the `if j = i`
selections express. -/
def step (st : State) (op : Op) : State :=
  match op with
  | .fresh =>
      let p := constructFresh st.heap
      ⟨p.1, st.reps ++ [p.2]⟩
  | .copy j =>
      match st.reps[j]? with
      | some rj =>
          let p := constructFromCopy st.heap rj
          ⟨p.1, st.reps ++ [p.2]⟩
      | none => st
  | .assign i j =>
      match st.reps[i]?, st.reps[j]? with
      | some ri, some rj0 =>
          let H1 := (DecrementReferenceCount st.heap ri).1
          let ri1 := (DecrementReferenceCount st.heap ri).2
          let rj1 := if j = i then ri1 else rj0
          let ri2 : Representation := { ri1 with implementation := rj1.implementation }
          let rj2 := if j = i then ri2 else rj0
          let ri3 : Representation := { ri2 with reference_count := rj2.reference_count }
          ⟨IncrementReferenceCount H1 ri3, st.reps.set i ri3⟩
      | _, _ => st
  | .destroy i =>
      match st.reps[i]? with
      | some ri =>
          ⟨(DecrementReferenceCount st.heap ri).1, st.reps.eraseIdx i⟩
      | none => st

/-- Empty initial state. -/
def init : State := ⟨emptyHeap, []⟩

/-- Run a trace from the initial state. -/
def run (ops : List Op) : State := ops.foldl step init

/-- Number of live handles whose `reference_count` pointer is `a`. -/
def numRefs (reps : List Representation) (a : Nat) : Nat :=
  reps.countP (fun r => r.reference_count == a)

end DetachedCountedBody

end CleanCode

namespace CleanCode

namespace CountedBody

/-- Single-group trace invariant for count conservation: every live handle
aliases the group allocated by the initial fresh construction (address 1)
and that group's embedded count equals the number of live handles. -/
def SingleGroupInv (st : State) : Prop :=
  (∀ r ∈ st.reps, r.implementation = 1) ∧
  st.heap.count 1 = (st.reps.length : Int)

end CountedBody

namespace DetachedCountedBody

/-- Single-group trace invariant for count conservation: every live handle
aliases the payload and count cell allocated by the initial fresh
construction (address 1) and that cell's value equals the number of live
handles. -/
def SingleGroupInv (st : State) : Prop :=
  (∀ r ∈ st.reps, r.implementation = 1 ∧ r.reference_count = 1) ∧
  st.heap.cntVal 1 = (st.reps.length : Int)

/-- Well-formedness invariant of every reachable detached-variant trace
state — the induction vehicle for the joint Payload/ShareCount lifecycle
property.  It records: payload and count-cell allocation flags agree at
every paired address; each count cell holds exactly the number of live
handles whose count pointer targets it (the arithmetic is conserved even
across the premature deallocation reachable through unguarded
self-assignment); each handle either pairs its payload and count pointers
or carries the nulled payload pointer that the deallocation branch leaves
behind; count pointers are non-null and below the allocation frontier;
addresses at or beyond the frontier are unallocated; and a handle whose
payload pointer was nulled references a count cell that is already
deallocated (addresses are never reused). -/
structure WF (st : State) : Prop where
  nextPos : 1 ≤ st.heap.next
  flagEq : ∀ a, st.heap.objAllocated a = st.heap.cntAllocated a
  conserve : ∀ a, st.heap.cntVal a = (numRefs st.reps a : Int)
  implOk : ∀ r ∈ st.reps, r.implementation = r.reference_count ∨ r.implementation = 0
  rcPos : ∀ r ∈ st.reps, 1 ≤ r.reference_count
  rcBound : ∀ r ∈ st.reps, r.reference_count < st.heap.next
  freshFree : ∀ a, st.heap.next ≤ a → st.heap.cntAllocated a = false
  nullDead : ∀ r ∈ st.reps, r.implementation = 0 →
    st.heap.cntAllocated r.reference_count = false

end DetachedCountedBody

end CleanCode

namespace CleanCode

theorem setF_same {α : Type} (f : Nat → α) (p : Nat) (v : α) : setF f p v p = v := by
  simp [setF]

theorem setF_other {α : Type} (f : Nat → α) (p q : Nat) (v : α) (h : q ≠ p) :
    setF f p v q = f q := by
  simp [setF, h]

theorem countP_set {α : Type} (p : α → Bool) :
    ∀ (l : List α) (i : Nat) (v : α), ∀ h : i < l.length,
      (l.set i v).countP p + (if p l[i] then 1 else 0)
        = l.countP p + (if p v then 1 else 0)
  | [], i, v, h => by simp at h
  | a :: t, 0, v, h => by
      simp only [List.set_cons_zero, List.countP_cons, List.getElem_cons_zero]
      split_ifs <;> omega
  | a :: t, i + 1, v, h => by
      have ih := countP_set p t i v (by simpa using h)
      simp only [List.set_cons_succ, List.countP_cons, List.getElem_cons_succ]
      split_ifs at ih ⊢ <;> omega

theorem countP_eraseIdx {α : Type} (p : α → Bool) :
    ∀ (l : List α) (i : Nat), ∀ h : i < l.length,
      (l.eraseIdx i).countP p + (if p l[i] then 1 else 0) = l.countP p
  | [], i, h => by simp at h
  | a :: t, 0, h => by
      simp [List.eraseIdx_cons_zero, List.countP_cons, List.getElem_cons_zero]
  | a :: t, i + 1, h => by
      have ih := countP_eraseIdx p t i (by simpa using h)
      simp only [List.eraseIdx_cons_succ, List.countP_cons, List.getElem_cons_succ]
      split_ifs at ih ⊢ <;> omega

/-- C7: `construct_fresh()` of either variant returns a Handle referencing a
newly allocated Payload whose group's ShareCount equals exactly 1: in the
embedded variant the count field inside the new Payload is 1 after the
constructor's increment, and in the detached variant the newly allocated
count cell holds 1. -/
theorem claim_C7_fresh_count_one :
    (∀ H : CountedBody.Heap,
      ((CountedBody.constructFresh H).2).implementation = H.next ∧
      (CountedBody.constructFresh H).1.count H.next = 1 ∧
      (CountedBody.constructFresh H).1.allocated H.next = true) ∧
    (∀ H : DetachedCountedBody.Heap,
      ((DetachedCountedBody.constructFresh H).2).implementation = H.next ∧
      ((DetachedCountedBody.constructFresh H).2).reference_count = H.next ∧
      (DetachedCountedBody.constructFresh H).1.cntVal H.next = 1 ∧
      (DetachedCountedBody.constructFresh H).1.objAllocated H.next = true ∧
      (DetachedCountedBody.constructFresh H).1.cntAllocated H.next = true) := by
  constructor
  · intro H
    refine ⟨rfl, ?_, ?_⟩ <;>
      simp [CountedBody.constructFresh, CountedBody.newImplementation,
        CountedBody.IncrementReferenceCount, setF]
  · intro H
    refine ⟨rfl, rfl, ?_, ?_, ?_⟩ <;>
      simp [DetachedCountedBody.constructFresh, setF]

/-- C8: `construct_from_copy(other)` of either variant produces a Handle that
aliases `other`'s group (same Payload pointer, and for the detached variant
also the same ShareCount pointer) and increases that group's ShareCount by
exactly 1, leaving every other address's count — and all allocation state —
unchanged. -/
theorem claim_C8_copy_aliases_and_increments :
    (∀ (H : CountedBody.Heap) (other : CountedBody.Representation),
      ((CountedBody.constructFromCopy H other).2).implementation = other.implementation ∧
      (∀ q, (CountedBody.constructFromCopy H other).1.count q =
        if q = other.implementation then H.count q + 1 else H.count q) ∧
      (CountedBody.constructFromCopy H other).1.allocated = H.allocated ∧
      (CountedBody.constructFromCopy H other).1.deallocs = H.deallocs ∧
      (CountedBody.constructFromCopy H other).1.next = H.next) ∧
    (∀ (H : DetachedCountedBody.Heap) (other : DetachedCountedBody.Representation),
      ((DetachedCountedBody.constructFromCopy H other).2).implementation = other.implementation ∧
      ((DetachedCountedBody.constructFromCopy H other).2).reference_count = other.reference_count ∧
      (∀ q, (DetachedCountedBody.constructFromCopy H other).1.cntVal q =
        if q = other.reference_count then H.cntVal q + 1 else H.cntVal q) ∧
      (DetachedCountedBody.constructFromCopy H other).1.objAllocated = H.objAllocated ∧
      (DetachedCountedBody.constructFromCopy H other).1.objDeallocs = H.objDeallocs ∧
      (DetachedCountedBody.constructFromCopy H other).1.cntAllocated = H.cntAllocated ∧
      (DetachedCountedBody.constructFromCopy H other).1.cntDeallocs = H.cntDeallocs ∧
      (DetachedCountedBody.constructFromCopy H other).1.next = H.next) := by
  constructor
  · intro H other
    refine ⟨rfl, ?_, rfl, rfl, rfl⟩
    intro q
    by_cases hq : q = other.implementation <;>
      simp [CountedBody.constructFromCopy, CountedBody.IncrementReferenceCount, setF, hq]
  · intro H other
    refine ⟨rfl, rfl, ?_, rfl, rfl, rfl, rfl, rfl⟩
    intro q
    by_cases hq : q = other.reference_count <;>
      simp [DetachedCountedBody.constructFromCopy,
        DetachedCountedBody.IncrementReferenceCount, setF, hq]

/-- C1 fails on the literal source: with a single fresh Handle (ShareCount 1),
`assign(h, h)` is not a no-op.  Both variants decrement the count to 0,
deallocate the group, and then re-alias the freed group and increment the
freed count: afterwards the payload (and, detached, the count cell) is no
longer allocated, even though before the assignment the group was allocated
with ShareCount 1.  In the detached variant the surviving handle ends with a
null payload pointer and a dangling count pointer. -/
theorem claim_C1_self_assign_frees_group :
    ((CountedBody.run [Op.fresh]).heap.allocated 1 = true ∧
     (CountedBody.run [Op.fresh]).heap.count 1 = 1 ∧
     (CountedBody.run [Op.fresh, Op.assign 0 0]).heap.allocated 1 = false ∧
     (CountedBody.run [Op.fresh, Op.assign 0 0]).heap.deallocs 1 = 1 ∧
     (CountedBody.run [Op.fresh, Op.assign 0 0]).reps = [⟨1⟩]) ∧
    ((DetachedCountedBody.run [Op.fresh]).heap.objAllocated 1 = true ∧
     (DetachedCountedBody.run [Op.fresh]).heap.cntVal 1 = 1 ∧
     (DetachedCountedBody.run [Op.fresh, Op.assign 0 0]).heap.objAllocated 1 = false ∧
     (DetachedCountedBody.run [Op.fresh, Op.assign 0 0]).heap.cntAllocated 1 = false ∧
     (DetachedCountedBody.run [Op.fresh, Op.assign 0 0]).reps = [⟨0, 1⟩]) := by
  decide

/-- C3 fails on the literal source: in the trace fresh; assign(h, h);
destroy(h), the single group's Payload is deleted twice in the embedded
variant, and its ShareCount cell is deleted twice in the detached variant
(whose Payload escapes the second delete only because the pointer was nulled,
so the second `delete this->implementation` acts on `nullptr`). -/
theorem claim_C3_double_free :
    ((CountedBody.run [Op.fresh, Op.assign 0 0, Op.destroy 0]).heap.deallocs 1 = 2) ∧
    ((DetachedCountedBody.run [Op.fresh, Op.assign 0 0, Op.destroy 0]).heap.cntDeallocs 1 = 2) ∧
    ((DetachedCountedBody.run [Op.fresh, Op.assign 0 0, Op.destroy 0]).heap.objDeallocs 1 = 1) := by
  decide

/-- C4 fails on the literal detached source in its clearing clause: with h on
group 1 (count 1) and g on group 2, the decrement phase of `assign(h, g)`
deallocates group 1's Payload and count cell, nulls the Payload pointer
(twice), but leaves `reference_count` pointing at the freed cell — the local
references are not both cleared before re-aliasing.  The remainder of the
claim does hold on this input: the completed assignment leaves both handles
aliasing group 2 with its count at 2, group 1 having been deallocated
exactly once. -/
theorem claim_C4_count_pointer_left_dangling :
    ((DetachedCountedBody.DecrementReferenceCount
        (DetachedCountedBody.run [Op.fresh, Op.fresh]).heap ⟨1, 1⟩).2.implementation = 0) ∧
    ((DetachedCountedBody.DecrementReferenceCount
        (DetachedCountedBody.run [Op.fresh, Op.fresh]).heap ⟨1, 1⟩).2.reference_count = 1) ∧
    ((DetachedCountedBody.DecrementReferenceCount
        (DetachedCountedBody.run [Op.fresh, Op.fresh]).heap ⟨1, 1⟩).1.cntAllocated 1 = false) ∧
    ((DetachedCountedBody.DecrementReferenceCount
        (DetachedCountedBody.run [Op.fresh, Op.fresh]).heap ⟨1, 1⟩).1.objAllocated 1 = false) ∧
    ((DetachedCountedBody.run [Op.fresh, Op.fresh, Op.assign 0 1]).reps
        = [⟨2, 2⟩, ⟨2, 2⟩]) ∧
    ((DetachedCountedBody.run [Op.fresh, Op.fresh, Op.assign 0 1]).heap.cntVal 2 = 2) ∧
    ((DetachedCountedBody.run [Op.fresh, Op.fresh, Op.assign 0 1]).heap.cntDeallocs 1 = 1) ∧
    ((DetachedCountedBody.run [Op.fresh, Op.fresh, Op.assign 0 1]).heap.objDeallocs 1 = 1) := by
  decide


theorem cb_dec_high (H : CountedBody.Heap) (r : CountedBody.Representation)
    (h : 1 < H.count r.implementation) :
    CountedBody.DecrementReferenceCount H r =
      ({ H with count := setF H.count r.implementation (H.count r.implementation - 1) }, r) := by
  unfold CountedBody.DecrementReferenceCount
  rw [if_pos]
  show 0 < setF H.count r.implementation (H.count r.implementation - 1) r.implementation
  rw [setF_same]
  omega

theorem cb_dec_low (H : CountedBody.Heap) (r : CountedBody.Representation)
    (h : H.count r.implementation ≤ 1) :
    CountedBody.DecrementReferenceCount H r =
      (CountedBody.deleteImplementation
        { H with count := setF H.count r.implementation (H.count r.implementation - 1) }
        r.implementation, r) := by
  unfold CountedBody.DecrementReferenceCount
  rw [if_neg]
  show ¬ 0 < setF H.count r.implementation (H.count r.implementation - 1) r.implementation
  rw [setF_same]
  omega

theorem dcb_dec_high (H : DetachedCountedBody.Heap) (r : DetachedCountedBody.Representation)
    (h : 1 < H.cntVal r.reference_count) :
    DetachedCountedBody.DecrementReferenceCount H r =
      ({ H with cntVal := setF H.cntVal r.reference_count (H.cntVal r.reference_count - 1) }, r) := by
  unfold DetachedCountedBody.DecrementReferenceCount
  rw [if_pos]
  show 0 < setF H.cntVal r.reference_count (H.cntVal r.reference_count - 1) r.reference_count
  rw [setF_same]
  omega

theorem dcb_dec_low (H : DetachedCountedBody.Heap) (r : DetachedCountedBody.Representation)
    (h : H.cntVal r.reference_count ≤ 1) :
    DetachedCountedBody.DecrementReferenceCount H r =
      (DetachedCountedBody.deleteCnt
        (DetachedCountedBody.deleteObj
          { H with cntVal := setF H.cntVal r.reference_count (H.cntVal r.reference_count - 1) }
          r.implementation)
        r.reference_count,
       ⟨0, r.reference_count⟩) := by
  unfold DetachedCountedBody.DecrementReferenceCount
  rw [if_neg]
  show ¬ 0 < setF H.cntVal r.reference_count (H.cntVal r.reference_count - 1) r.reference_count
  rw [setF_same]
  omega

/-- C5: for every live Handle (non-null pointers, ShareCount at least 1),
destroy decrements its group's ShareCount by 1 and deallocates the group's
Payload — for the detached variant both the Payload and the ShareCount
cell — if and only if the count reaches 0; if the count stays above 0
nothing is deallocated. -/
theorem claim_C5_destroy_frees_iff_count_zero :
    (∀ (H : CountedBody.Heap) (r : CountedBody.Representation),
      r.implementation ≠ 0 → 1 ≤ H.count r.implementation →
      (CountedBody.destroy H r).count r.implementation
          = H.count r.implementation - 1 ∧
      (H.count r.implementation = 1 →
        (CountedBody.destroy H r).allocated r.implementation = false ∧
        (CountedBody.destroy H r).deallocs r.implementation
            = H.deallocs r.implementation + 1) ∧
      (1 < H.count r.implementation →
        (CountedBody.destroy H r).allocated = H.allocated ∧
        (CountedBody.destroy H r).deallocs = H.deallocs)) ∧
    (∀ (H : DetachedCountedBody.Heap) (r : DetachedCountedBody.Representation),
      r.implementation ≠ 0 → r.reference_count ≠ 0 →
      1 ≤ H.cntVal r.reference_count →
      (DetachedCountedBody.destroy H r).cntVal r.reference_count
          = H.cntVal r.reference_count - 1 ∧
      (H.cntVal r.reference_count = 1 →
        (DetachedCountedBody.destroy H r).objAllocated r.implementation = false ∧
        (DetachedCountedBody.destroy H r).objDeallocs r.implementation
            = H.objDeallocs r.implementation + 1 ∧
        (DetachedCountedBody.destroy H r).cntAllocated r.reference_count = false ∧
        (DetachedCountedBody.destroy H r).cntDeallocs r.reference_count
            = H.cntDeallocs r.reference_count + 1) ∧
      (1 < H.cntVal r.reference_count →
        (DetachedCountedBody.destroy H r).objAllocated = H.objAllocated ∧
        (DetachedCountedBody.destroy H r).objDeallocs = H.objDeallocs ∧
        (DetachedCountedBody.destroy H r).cntAllocated = H.cntAllocated ∧
        (DetachedCountedBody.destroy H r).cntDeallocs = H.cntDeallocs)) := by
  constructor
  · intro H r hp hc
    by_cases h1 : H.count r.implementation = 1
    · have hlow := cb_dec_low H r (by omega)
      unfold CountedBody.destroy
      rw [hlow]
      refine ⟨?_, fun _ => ⟨?_, ?_⟩, fun hgt => absurd h1 (by omega)⟩ <;>
        simp [CountedBody.deleteImplementation, hp, setF_same]
    · have hhigh := cb_dec_high H r (by omega)
      unfold CountedBody.destroy
      rw [hhigh]
      exact ⟨setF_same .., fun he => absurd he h1, fun _ => ⟨rfl, rfl⟩⟩
  · intro H r hp hq hc
    by_cases h1 : H.cntVal r.reference_count = 1
    · have hlow := dcb_dec_low H r (by omega)
      unfold DetachedCountedBody.destroy
      rw [hlow]
      refine ⟨?_, fun _ => ⟨?_, ?_, ?_, ?_⟩, fun hgt => absurd h1 (by omega)⟩ <;>
        simp [DetachedCountedBody.deleteCnt, DetachedCountedBody.deleteObj,
          hp, hq, setF_same]
    · have hhigh := dcb_dec_high H r (by omega)
      unfold DetachedCountedBody.destroy
      rw [hhigh]
      exact ⟨setF_same .., fun he => absurd he h1, fun _ => ⟨rfl, rfl, rfl, rfl⟩⟩

/-- Witness for C5: a freshly constructed group of each variant (count 1)
is deallocated by its single destroy. -/
theorem claim_C5_witness :
    ((⟨1⟩ : CountedBody.Representation).implementation ≠ 0 ∧
     1 ≤ (CountedBody.run [Op.fresh]).heap.count 1 ∧
     (CountedBody.destroy (CountedBody.run [Op.fresh]).heap ⟨1⟩).count 1
        = (CountedBody.run [Op.fresh]).heap.count 1 - 1) ∧
    ((⟨1, 1⟩ : DetachedCountedBody.Representation).reference_count ≠ 0 ∧
     1 ≤ (DetachedCountedBody.run [Op.fresh]).heap.cntVal 1 ∧
     (DetachedCountedBody.destroy (DetachedCountedBody.run [Op.fresh]).heap ⟨1, 1⟩).cntVal 1
        = (DetachedCountedBody.run [Op.fresh]).heap.cntVal 1 - 1) :=
  ⟨⟨by decide, by decide,
    (claim_C5_destroy_frees_iff_count_zero.1
      (CountedBody.run [Op.fresh]).heap ⟨1⟩ (by decide) (by decide)).1⟩,
   ⟨by decide, by decide,
    (claim_C5_destroy_frees_iff_count_zero.2
      (DetachedCountedBody.run [Op.fresh]).heap ⟨1, 1⟩
      (by decide) (by decide) (by decide)).1⟩⟩

/-- C9: whenever the decrement routine takes its deallocation branch
(pre-decrement count at most 1), the embedded variant leaves the handle
pointer field unchanged — still the address of the now-freed Payload,
because source line 106 is an equality comparison rather than an
assignment — while the detached variant's routine (whose body nulls
`implementation` twice, at lines 114 and 118) ends with `implementation`
null and `reference_count` unchanged, still the address of the freed
count cell. -/
theorem claim_C9_dangling_pointers_after_dealloc :
    (∀ (H : CountedBody.Heap) (r : CountedBody.Representation),
      r.implementation ≠ 0 → H.count r.implementation ≤ 1 →
      (CountedBody.DecrementReferenceCount H r).2 = r ∧
      (CountedBody.DecrementReferenceCount H r).1.allocated r.implementation = false) ∧
    (∀ (H : DetachedCountedBody.Heap) (r : DetachedCountedBody.Representation),
      r.reference_count ≠ 0 → H.cntVal r.reference_count ≤ 1 →
      (DetachedCountedBody.DecrementReferenceCount H r).2.implementation = 0 ∧
      (DetachedCountedBody.DecrementReferenceCount H r).2.reference_count
          = r.reference_count ∧
      (DetachedCountedBody.DecrementReferenceCount H r).1.cntAllocated
          r.reference_count = false) := by
  constructor
  · intro H r hp hc
    rw [cb_dec_low H r hc]
    refine ⟨rfl, ?_⟩
    simp [CountedBody.deleteImplementation, hp, setF_same]
  · intro H r hq hc
    rw [dcb_dec_low H r hc]
    refine ⟨rfl, rfl, ?_⟩
    simp [DetachedCountedBody.deleteCnt, hq, setF_same]

/-- Witness for C9: the fresh single-handle group of each variant, whose
count is 1, exercises the deallocation branch. -/
theorem claim_C9_witness :
    ((⟨1⟩ : CountedBody.Representation).implementation ≠ 0 ∧
     (CountedBody.run [Op.fresh]).heap.count 1 ≤ 1 ∧
     (CountedBody.DecrementReferenceCount (CountedBody.run [Op.fresh]).heap ⟨1⟩).2
        = ⟨1⟩) ∧
    ((⟨1, 1⟩ : DetachedCountedBody.Representation).reference_count ≠ 0 ∧
     (DetachedCountedBody.run [Op.fresh]).heap.cntVal 1 ≤ 1 ∧
     (DetachedCountedBody.DecrementReferenceCount
        (DetachedCountedBody.run [Op.fresh]).heap ⟨1, 1⟩).2.implementation = 0) :=
  ⟨⟨by decide, by decide,
    (claim_C9_dangling_pointers_after_dealloc.1
      (CountedBody.run [Op.fresh]).heap ⟨1⟩ (by decide) (by decide)).1⟩,
   ⟨by decide, by decide,
    (claim_C9_dangling_pointers_after_dealloc.2
      (DetachedCountedBody.run [Op.fresh]).heap ⟨1, 1⟩ (by decide) (by decide)).1⟩⟩

/-- C10: if two handles alias the same group and its ShareCount is at least
2, the unguarded assignment is harmless for both variants — the decrement
leaves the count positive so nothing is deallocated, the re-alias rewrites
the same pointers, and the increment restores the count, leaving the heap
and the assigned handle exactly as before — while at shared count 1 the
same aliased assignment deallocates the group, so the missing identity
guard is unsafe exactly then. -/
theorem claim_C10_aliased_assign_safe_iff_count_ge_two :
    (∀ (H : CountedBody.Heap) (r g : CountedBody.Representation),
      g.implementation = r.implementation → 2 ≤ H.count r.implementation →
      (CountedBody.assign H r g).2 = r ∧
      (∀ q, (CountedBody.assign H r g).1.count q = H.count q) ∧
      (CountedBody.assign H r g).1.allocated = H.allocated ∧
      (CountedBody.assign H r g).1.deallocs = H.deallocs ∧
      (CountedBody.assign H r g).1.next = H.next) ∧
    (∀ (H : DetachedCountedBody.Heap) (r g : DetachedCountedBody.Representation),
      g.implementation = r.implementation →
      g.reference_count = r.reference_count →
      2 ≤ H.cntVal r.reference_count →
      (DetachedCountedBody.assign H r g).2 = r ∧
      (∀ q, (DetachedCountedBody.assign H r g).1.cntVal q = H.cntVal q) ∧
      (DetachedCountedBody.assign H r g).1.objAllocated = H.objAllocated ∧
      (DetachedCountedBody.assign H r g).1.objDeallocs = H.objDeallocs ∧
      (DetachedCountedBody.assign H r g).1.cntAllocated = H.cntAllocated ∧
      (DetachedCountedBody.assign H r g).1.cntDeallocs = H.cntDeallocs ∧
      (DetachedCountedBody.assign H r g).1.next = H.next) ∧
    (∀ (H : CountedBody.Heap) (r g : CountedBody.Representation),
      g.implementation = r.implementation → r.implementation ≠ 0 →
      H.count r.implementation = 1 →
      (CountedBody.assign H r g).1.allocated r.implementation = false ∧
      (CountedBody.assign H r g).1.deallocs r.implementation
          = H.deallocs r.implementation + 1) ∧
    (∀ (H : DetachedCountedBody.Heap) (r g : DetachedCountedBody.Representation),
      g.reference_count = r.reference_count → r.reference_count ≠ 0 →
      H.cntVal r.reference_count = 1 →
      (DetachedCountedBody.assign H r g).1.cntAllocated r.reference_count = false) := by
  refine ⟨?_, ?_, ?_, ?_⟩
  · intro H r g hg hc
    unfold CountedBody.assign
    rw [cb_dec_high H r (by omega)]
    refine ⟨?_, ?_, rfl, rfl, rfl⟩
    · show (⟨g.implementation⟩ : CountedBody.Representation) = r
      rw [hg]
    · intro q
      show setF (setF H.count r.implementation (H.count r.implementation - 1))
        g.implementation
        (setF H.count r.implementation (H.count r.implementation - 1)
          g.implementation + 1) q = H.count q
      by_cases hq : q = r.implementation
      · subst hq
        rw [hg, setF_same, setF_same]
        omega
      · rw [setF_other _ _ _ _ (by rw [hg]; exact hq),
          setF_other _ _ _ _ hq]
  · intro H r g hgi hgc hc
    unfold DetachedCountedBody.assign
    rw [dcb_dec_high H r (by omega)]
    refine ⟨?_, ?_, rfl, rfl, rfl, rfl, rfl⟩
    · show (⟨g.implementation, g.reference_count⟩ :
        DetachedCountedBody.Representation) = r
      rw [hgi, hgc]
    · intro q
      show setF (setF H.cntVal r.reference_count (H.cntVal r.reference_count - 1))
        g.reference_count
        (setF H.cntVal r.reference_count (H.cntVal r.reference_count - 1)
          g.reference_count + 1) q = H.cntVal q
      by_cases hq : q = r.reference_count
      · subst hq
        rw [hgc, setF_same, setF_same]
        omega
      · rw [setF_other _ _ _ _ (by rw [hgc]; exact hq),
          setF_other _ _ _ _ hq]
  · intro H r g hg hp hc
    unfold CountedBody.assign
    rw [cb_dec_low H r (by omega)]
    constructor <;>
      simp [CountedBody.IncrementReferenceCount,
        CountedBody.deleteImplementation, hp, setF_same]
  · intro H r g hgc hq hc
    unfold DetachedCountedBody.assign
    rw [dcb_dec_low H r (by omega)]
    simp [DetachedCountedBody.IncrementReferenceCount,
      DetachedCountedBody.deleteCnt, DetachedCountedBody.deleteObj, hq, setF_same]

/-- Witness for C10: two handles sharing a fresh group (count 2); the
aliased assignment leaves the count at 2, and at count 1 it frees the
group. -/
theorem claim_C10_witness :
    (2 ≤ (CountedBody.run [Op.fresh, Op.copy 0]).heap.count 1 ∧
     (CountedBody.assign (CountedBody.run [Op.fresh, Op.copy 0]).heap ⟨1⟩ ⟨1⟩).2 = ⟨1⟩ ∧
     (CountedBody.assign (CountedBody.run [Op.fresh, Op.copy 0]).heap ⟨1⟩ ⟨1⟩).1.count 1
        = (CountedBody.run [Op.fresh, Op.copy 0]).heap.count 1) ∧
    ((CountedBody.run [Op.fresh]).heap.count 1 = 1 ∧
     (CountedBody.assign (CountedBody.run [Op.fresh]).heap ⟨1⟩ ⟨1⟩).1.allocated 1 = false) :=
  ⟨⟨by decide,
    (claim_C10_aliased_assign_safe_iff_count_ge_two.1
      (CountedBody.run [Op.fresh, Op.copy 0]).heap ⟨1⟩ ⟨1⟩ rfl (by decide)).1,
    (claim_C10_aliased_assign_safe_iff_count_ge_two.1
      (CountedBody.run [Op.fresh, Op.copy 0]).heap ⟨1⟩ ⟨1⟩ rfl (by decide)).2.1 1⟩,
   ⟨by decide,
    (claim_C10_aliased_assign_safe_iff_count_ge_two.2.2.1
      (CountedBody.run [Op.fresh]).heap ⟨1⟩ ⟨1⟩ rfl (by decide) (by decide)).1⟩⟩


theorem cb_dec_count (H : CountedBody.Heap) (r : CountedBody.Representation)
    (q : Nat) :
    (CountedBody.DecrementReferenceCount H r).1.count q
      = setF H.count r.implementation (H.count r.implementation - 1) q := by
  by_cases h : 1 < H.count r.implementation
  · rw [cb_dec_high H r h]
  · rw [cb_dec_low H r (by omega)]
    unfold CountedBody.deleteImplementation
    split_ifs <;> rfl

theorem dcb_dec_cntVal (H : DetachedCountedBody.Heap)
    (r : DetachedCountedBody.Representation) (q : Nat) :
    (DetachedCountedBody.DecrementReferenceCount H r).1.cntVal q
      = setF H.cntVal r.reference_count (H.cntVal r.reference_count - 1) q := by
  by_cases h : 1 < H.cntVal r.reference_count
  · rw [dcb_dec_high H r h]
  · rw [dcb_dec_low H r (by omega)]
    unfold DetachedCountedBody.deleteCnt DetachedCountedBody.deleteObj
    split_ifs <;> rfl

theorem cb_single_step (st : CountedBody.State) (op : Op)
    (hop : op.copyOrDestroy = true) (h : CountedBody.SingleGroupInv st) :
    CountedBody.SingleGroupInv (CountedBody.step st op) := by
  obtain ⟨hall, hcount⟩ := h
  cases op with
  | fresh => simp [Op.copyOrDestroy] at hop
  | assign i j => simp [Op.copyOrDestroy] at hop
  | copy j =>
      cases hj : st.reps[j]? with
      | none =>
          have hstep : CountedBody.step st (.copy j) = st := by
            simp [CountedBody.step, hj]
          rw [hstep]
          exact ⟨hall, hcount⟩
      | some rj =>
          have hrj : rj.implementation = 1 := hall rj (List.getElem?_mem hj)
          have hstep : CountedBody.step st (.copy j) =
              ⟨CountedBody.IncrementReferenceCount st.heap ⟨rj.implementation⟩,
               st.reps ++ [⟨rj.implementation⟩]⟩ := by
            simp [CountedBody.step, hj, CountedBody.constructFromCopy]
          rw [hstep]
          constructor
          · intro r hr
            rcases List.mem_append.mp hr with hr1 | hr2
            · exact hall r hr1
            · rw [List.mem_singleton.mp hr2, hrj]
          · show setF st.heap.count rj.implementation
              (st.heap.count rj.implementation + 1) 1
                = ((st.reps ++ [(⟨rj.implementation⟩ : CountedBody.Representation)]).length : Int)
            rw [hrj, setF_same, List.length_append, List.length_singleton, hcount]
            push_cast
            omega
  | destroy i =>
      cases hi : st.reps[i]? with
      | none =>
          have hstep : CountedBody.step st (.destroy i) = st := by
            simp [CountedBody.step, hi]
          rw [hstep]
          exact ⟨hall, hcount⟩
      | some ri =>
          have hri : ri.implementation = 1 := hall ri (List.getElem?_mem hi)
          have hlti : i < st.reps.length := (List.getElem?_eq_some.mp hi).1
          have hstep : CountedBody.step st (.destroy i) =
              ⟨(CountedBody.DecrementReferenceCount st.heap ri).1,
               st.reps.eraseIdx i⟩ := by
            simp [CountedBody.step, hi]
          rw [hstep]
          constructor
          · intro r hr
            exact hall r ((List.eraseIdx_sublist st.reps i).mem hr)
          · show (CountedBody.DecrementReferenceCount st.heap ri).1.count 1
                = ((st.reps.eraseIdx i).length : Int)
            rw [cb_dec_count, hri, setF_same, hcount, List.length_eraseIdx]
            simp only [hlti, if_pos]
            omega

theorem dcb_single_step (st : DetachedCountedBody.State) (op : Op)
    (hop : op.copyOrDestroy = true) (h : DetachedCountedBody.SingleGroupInv st) :
    DetachedCountedBody.SingleGroupInv (DetachedCountedBody.step st op) := by
  obtain ⟨hall, hcount⟩ := h
  cases op with
  | fresh => simp [Op.copyOrDestroy] at hop
  | assign i j => simp [Op.copyOrDestroy] at hop
  | copy j =>
      cases hj : st.reps[j]? with
      | none =>
          have hstep : DetachedCountedBody.step st (.copy j) = st := by
            simp [DetachedCountedBody.step, hj]
          rw [hstep]
          exact ⟨hall, hcount⟩
      | some rj =>
          have hrj := hall rj (List.getElem?_mem hj)
          have hstep : DetachedCountedBody.step st (.copy j) =
              ⟨DetachedCountedBody.IncrementReferenceCount st.heap
                 ⟨rj.implementation, rj.reference_count⟩,
               st.reps ++ [⟨rj.implementation, rj.reference_count⟩]⟩ := by
            simp [DetachedCountedBody.step, hj, DetachedCountedBody.constructFromCopy]
          rw [hstep]
          constructor
          · intro r hr
            rcases List.mem_append.mp hr with hr1 | hr2
            · exact hall r hr1
            · rw [List.mem_singleton.mp hr2]
              exact hrj
          · show setF st.heap.cntVal rj.reference_count
              (st.heap.cntVal rj.reference_count + 1) 1
                = ((st.reps ++ [(⟨rj.implementation, rj.reference_count⟩ :
                    DetachedCountedBody.Representation)]).length : Int)
            rw [hrj.2, setF_same, List.length_append, List.length_singleton, hcount]
            push_cast
            omega
  | destroy i =>
      cases hi : st.reps[i]? with
      | none =>
          have hstep : DetachedCountedBody.step st (.destroy i) = st := by
            simp [DetachedCountedBody.step, hi]
          rw [hstep]
          exact ⟨hall, hcount⟩
      | some ri =>
          have hri := hall ri (List.getElem?_mem hi)
          have hlti : i < st.reps.length := (List.getElem?_eq_some.mp hi).1
          have hstep : DetachedCountedBody.step st (.destroy i) =
              ⟨(DetachedCountedBody.DecrementReferenceCount st.heap ri).1,
               st.reps.eraseIdx i⟩ := by
            simp [DetachedCountedBody.step, hi]
          rw [hstep]
          constructor
          · intro r hr
            exact hall r ((List.eraseIdx_sublist st.reps i).mem hr)
          · show (DetachedCountedBody.DecrementReferenceCount st.heap ri).1.cntVal 1
                = ((st.reps.eraseIdx i).length : Int)
            rw [dcb_dec_cntVal, hri.2, setF_same, hcount, List.length_eraseIdx]
            simp only [hlti, if_pos]
            omega

theorem cb_single_run (ops : List Op)
    (hops : ∀ op ∈ ops, op.copyOrDestroy = true) (st : CountedBody.State)
    (h : CountedBody.SingleGroupInv st) :
    CountedBody.SingleGroupInv (List.foldl CountedBody.step st ops) := by
  induction ops generalizing st with
  | nil => exact h
  | cons op t ih =>
      exact ih (fun o ho => hops o (List.mem_cons_of_mem op ho)) _
        (cb_single_step st op (hops op (List.mem_cons_self op t)) h)

theorem dcb_single_run (ops : List Op)
    (hops : ∀ op ∈ ops, op.copyOrDestroy = true) (st : DetachedCountedBody.State)
    (h : DetachedCountedBody.SingleGroupInv st) :
    DetachedCountedBody.SingleGroupInv (List.foldl DetachedCountedBody.step st ops) := by
  induction ops generalizing st with
  | nil => exact h
  | cons op t ih =>
      exact ih (fun o ho => hops o (List.mem_cons_of_mem op ho)) _
        (dcb_single_step st op (hops op (List.mem_cons_self op t)) h)

theorem cb_single_init : CountedBody.SingleGroupInv (CountedBody.run [Op.fresh]) := by
  constructor
  · intro r hr
    have hr1 : r ∈ [(⟨1⟩ : CountedBody.Representation)] := hr
    rw [List.mem_singleton.mp hr1]
  · decide

theorem dcb_single_init :
    DetachedCountedBody.SingleGroupInv (DetachedCountedBody.run [Op.fresh]) := by
  constructor
  · intro r hr
    have hr1 : r ∈ [(⟨1, 1⟩ : DetachedCountedBody.Representation)] := hr
    rw [List.mem_singleton.mp hr1]
    exact ⟨rfl, rfl⟩
  · decide

/-- C2: starting from one freshly constructed Handle of either variant, for
any sequence of construct-from-copy and destroy operations on the resulting
Handles, the group's ShareCount equals the number of live Handles
referencing that group (all live Handles reference it), and is at least 1
while at least one such Handle is live.  Quantifying over all copy/destroy
sequences gives the property after every operation, since every prefix of
such a sequence is again such a sequence. -/
theorem claim_C2_count_conservation (ops : List Op)
    (hops : ∀ op ∈ ops, op.copyOrDestroy = true) :
    ((∀ r ∈ (CountedBody.run (Op.fresh :: ops)).reps, r.implementation = 1) ∧
     (CountedBody.run (Op.fresh :: ops)).heap.count 1
        = (CountedBody.numRefs (CountedBody.run (Op.fresh :: ops)).reps 1 : Int) ∧
     CountedBody.numRefs (CountedBody.run (Op.fresh :: ops)).reps 1
        = (CountedBody.run (Op.fresh :: ops)).reps.length ∧
     ((CountedBody.run (Op.fresh :: ops)).reps ≠ [] →
        1 ≤ (CountedBody.run (Op.fresh :: ops)).heap.count 1)) ∧
    ((∀ r ∈ (DetachedCountedBody.run (Op.fresh :: ops)).reps,
        r.implementation = 1 ∧ r.reference_count = 1) ∧
     (DetachedCountedBody.run (Op.fresh :: ops)).heap.cntVal 1
        = (DetachedCountedBody.numRefs
            (DetachedCountedBody.run (Op.fresh :: ops)).reps 1 : Int) ∧
     DetachedCountedBody.numRefs (DetachedCountedBody.run (Op.fresh :: ops)).reps 1
        = (DetachedCountedBody.run (Op.fresh :: ops)).reps.length ∧
     ((DetachedCountedBody.run (Op.fresh :: ops)).reps ≠ [] →
        1 ≤ (DetachedCountedBody.run (Op.fresh :: ops)).heap.cntVal 1)) := by
  have hc : CountedBody.SingleGroupInv (CountedBody.run (Op.fresh :: ops)) :=
    cb_single_run ops hops (CountedBody.run [Op.fresh]) cb_single_init
  have hd : DetachedCountedBody.SingleGroupInv
      (DetachedCountedBody.run (Op.fresh :: ops)) :=
    dcb_single_run ops hops (DetachedCountedBody.run [Op.fresh]) dcb_single_init
  obtain ⟨hall, hcount⟩ := hc
  obtain ⟨hall2, hcount2⟩ := hd
  have hnum : CountedBody.numRefs (CountedBody.run (Op.fresh :: ops)).reps 1
      = (CountedBody.run (Op.fresh :: ops)).reps.length :=
    List.countP_eq_length.mpr (fun r hr => by
      simpa using hall r hr)
  have hnum2 : DetachedCountedBody.numRefs
      (DetachedCountedBody.run (Op.fresh :: ops)).reps 1
      = (DetachedCountedBody.run (Op.fresh :: ops)).reps.length :=
    List.countP_eq_length.mpr (fun r hr => by
      simpa using (hall2 r hr).2)
  refine ⟨⟨hall, ?_, hnum, ?_⟩, ⟨hall2, ?_, hnum2, ?_⟩⟩
  · rw [hcount, hnum]
  · intro hne
    have : 0 < (CountedBody.run (Op.fresh :: ops)).reps.length :=
      List.length_pos.mpr hne
    rw [hcount]
    omega
  · rw [hcount2, hnum2]
  · intro hne
    have : 0 < (DetachedCountedBody.run (Op.fresh :: ops)).reps.length :=
      List.length_pos.mpr hne
    rw [hcount2]
    omega

/-- Witness for C2 at the one-copy sequence: two live handles, count 2 in
both variants. -/
theorem claim_C2_witness :
    Op.copyOrDestroy (Op.copy 0) = true ∧
    (CountedBody.run [Op.fresh, Op.copy 0]).heap.count 1
        = (CountedBody.numRefs (CountedBody.run [Op.fresh, Op.copy 0]).reps 1 : Int) ∧
    (DetachedCountedBody.run [Op.fresh, Op.copy 0]).heap.cntVal 1
        = (DetachedCountedBody.numRefs
            (DetachedCountedBody.run [Op.fresh, Op.copy 0]).reps 1 : Int) :=
  ⟨rfl,
   ((claim_C2_count_conservation [Op.copy 0] (fun op hop => by
      cases List.mem_singleton.mp hop
      rfl)).1).2.1,
   ((claim_C2_count_conservation [Op.copy 0] (fun op hop => by
      cases List.mem_singleton.mp hop
      rfl)).2).2.1⟩


theorem countP_pair {α : Type} (p : α → Bool) :
    ∀ (l : List α) (i j : Nat) (ri rj : α), i < j → l[i]? = some ri →
      l[j]? = some rj → p ri = true → p rj = true → 2 ≤ l.countP p
  | [], i, j, ri, rj, hij, hi, _, _, _ => by simp at hi
  | a :: t, 0, j + 1, ri, rj, hij, hi, hj, hpi, hpj => by
      have ha : a = ri := by simpa using hi
      have hj2 : t[j]? = some rj := by simpa using hj
      have h1 : 0 < t.countP p :=
        List.countP_pos_iff.mpr ⟨rj, List.getElem?_mem hj2, hpj⟩
      have hpa : p a = true := by rw [ha]; exact hpi
      rw [List.countP_cons, if_pos hpa]
      omega
  | a :: t, i + 1, j + 1, ri, rj, hij, hi, hj, hpi, hpj => by
      have h2 := countP_pair p t i j ri rj (by omega) (by simpa using hi)
        (by simpa using hj) hpi hpj
      rw [List.countP_cons]
      omega

theorem dcb_numRefs_append (reps : List DetachedCountedBody.Representation)
    (r : DetachedCountedBody.Representation) (a : Nat) :
    DetachedCountedBody.numRefs (reps ++ [r]) a
      = DetachedCountedBody.numRefs reps a
        + (if r.reference_count = a then 1 else 0) := by
  unfold DetachedCountedBody.numRefs
  rw [List.countP_append]
  by_cases hr : r.reference_count = a <;> simp [List.countP_cons, hr]

theorem dcb_numRefs_pos (reps : List DetachedCountedBody.Representation)
    (r : DetachedCountedBody.Representation) (hr : r ∈ reps) :
    1 ≤ DetachedCountedBody.numRefs reps r.reference_count :=
  List.countP_pos_iff.mpr ⟨r, hr, by simp⟩

theorem dcb_numRefs_frontier (reps : List DetachedCountedBody.Representation)
    (n : Nat) (hall : ∀ r ∈ reps, r.reference_count < n) :
    DetachedCountedBody.numRefs reps n = 0 :=
  List.countP_eq_zero.mpr (fun r hr => by
    have := hall r hr
    simp only [beq_iff_eq]
    omega)

theorem dcb_step_fresh (st : DetachedCountedBody.State) :
    DetachedCountedBody.step st .fresh =
      ⟨{ st.heap with
          next := st.heap.next + 1
          objAllocated := setF st.heap.objAllocated st.heap.next true
          cntVal := setF st.heap.cntVal st.heap.next 1
          cntAllocated := setF st.heap.cntAllocated st.heap.next true },
       st.reps ++ [⟨st.heap.next, st.heap.next⟩]⟩ := rfl

theorem dcb_step_copy (st : DetachedCountedBody.State) (j : Nat)
    (rj : DetachedCountedBody.Representation) (hj : st.reps[j]? = some rj) :
    DetachedCountedBody.step st (.copy j) =
      ⟨DetachedCountedBody.IncrementReferenceCount st.heap
         ⟨rj.implementation, rj.reference_count⟩,
       st.reps ++ [⟨rj.implementation, rj.reference_count⟩]⟩ := by
  simp [DetachedCountedBody.step, hj, DetachedCountedBody.constructFromCopy]

theorem dcb_step_destroy (st : DetachedCountedBody.State) (i : Nat)
    (ri : DetachedCountedBody.Representation) (hi : st.reps[i]? = some ri) :
    DetachedCountedBody.step st (.destroy i) =
      ⟨(DetachedCountedBody.DecrementReferenceCount st.heap ri).1,
       st.reps.eraseIdx i⟩ := by
  simp [DetachedCountedBody.step, hi]

theorem dcb_step_assign_ne (st : DetachedCountedBody.State) (i j : Nat)
    (ri rj0 : DetachedCountedBody.Representation) (hi : st.reps[i]? = some ri)
    (hj : st.reps[j]? = some rj0) (hne : j ≠ i) :
    DetachedCountedBody.step st (.assign i j) =
      ⟨DetachedCountedBody.IncrementReferenceCount
         (DetachedCountedBody.DecrementReferenceCount st.heap ri).1
         ⟨rj0.implementation, rj0.reference_count⟩,
       st.reps.set i ⟨rj0.implementation, rj0.reference_count⟩⟩ := by
  simp [DetachedCountedBody.step, hi, hj, hne]

theorem dcb_step_assign_self (st : DetachedCountedBody.State) (i : Nat)
    (ri : DetachedCountedBody.Representation) (hi : st.reps[i]? = some ri) :
    DetachedCountedBody.step st (.assign i i) =
      ⟨DetachedCountedBody.IncrementReferenceCount
         (DetachedCountedBody.DecrementReferenceCount st.heap ri).1
         (DetachedCountedBody.DecrementReferenceCount st.heap ri).2,
       st.reps.set i (DetachedCountedBody.DecrementReferenceCount st.heap ri).2⟩ := by
  simp [DetachedCountedBody.step, hi]

theorem dcb_wf_fresh (st : DetachedCountedBody.State)
    (h : DetachedCountedBody.WF st) :
    DetachedCountedBody.WF (DetachedCountedBody.step st .fresh) := by
  obtain ⟨hnext, hflag, hcons, himpl, hrcp, hrcb, hff, hnd⟩ := h
  rw [dcb_step_fresh]
  refine ⟨?_, ?_, ?_, ?_, ?_, ?_, ?_, ?_⟩
  · show 1 ≤ st.heap.next + 1
    omega
  · intro a
    by_cases ha : a = st.heap.next
    · subst ha
      show setF st.heap.objAllocated st.heap.next true st.heap.next
          = setF st.heap.cntAllocated st.heap.next true st.heap.next
      rw [setF_same, setF_same]
    · show setF st.heap.objAllocated st.heap.next true a
          = setF st.heap.cntAllocated st.heap.next true a
      rw [setF_other _ _ _ _ ha, setF_other _ _ _ _ ha]
      exact hflag a
  · intro a
    show setF st.heap.cntVal st.heap.next 1 a
        = (DetachedCountedBody.numRefs
            (st.reps ++ [⟨st.heap.next, st.heap.next⟩]) a : Int)
    rw [dcb_numRefs_append]
    by_cases ha : a = st.heap.next
    · subst ha
      rw [setF_same]
      have h0 : DetachedCountedBody.numRefs st.reps st.heap.next = 0 :=
        dcb_numRefs_frontier st.reps st.heap.next hrcb
      simp [h0]
    · rw [setF_other _ _ _ _ ha, hcons a]
      have : ¬ ((⟨st.heap.next, st.heap.next⟩ :
          DetachedCountedBody.Representation).reference_count = a) := fun hc =>
        ha hc.symm
      simp [this]
  · intro r hr
    rcases List.mem_append.mp hr with hr1 | hr2
    · exact himpl r hr1
    · rw [List.mem_singleton.mp hr2]
      exact Or.inl rfl
  · intro r hr
    rcases List.mem_append.mp hr with hr1 | hr2
    · exact hrcp r hr1
    · rw [List.mem_singleton.mp hr2]
      exact hnext
  · intro r hr
    rcases List.mem_append.mp hr with hr1 | hr2
    · have := hrcb r hr1
      show r.reference_count < st.heap.next + 1
      omega
    · rw [List.mem_singleton.mp hr2]
      show st.heap.next < st.heap.next + 1
      omega
  · intro a ha
    have ha2 : st.heap.next + 1 ≤ a := ha
    show setF st.heap.cntAllocated st.heap.next true a = false
    have hne : a ≠ st.heap.next := by
      show ¬ a = st.heap.next
      omega
    rw [setF_other _ _ _ _ hne]
    exact hff a (by omega)
  · intro r hr h0
    rcases List.mem_append.mp hr with hr1 | hr2
    · have hlt := hrcb r hr1
      show setF st.heap.cntAllocated st.heap.next true r.reference_count = false
      rw [setF_other _ _ _ _ (by omega)]
      exact hnd r hr1 h0
    · have h02 : st.heap.next = 0 := by
        have hreq := List.mem_singleton.mp hr2
        rw [hreq] at h0
        exact h0
      omega

theorem dcb_wf_copy (st : DetachedCountedBody.State) (j : Nat)
    (h : DetachedCountedBody.WF st) :
    DetachedCountedBody.WF (DetachedCountedBody.step st (.copy j)) := by
  obtain ⟨hnext, hflag, hcons, himpl, hrcp, hrcb, hff, hnd⟩ := h
  cases hj : st.reps[j]? with
  | none =>
      have hstep : DetachedCountedBody.step st (.copy j) = st := by
        simp [DetachedCountedBody.step, hj]
      rw [hstep]
      exact ⟨hnext, hflag, hcons, himpl, hrcp, hrcb, hff, hnd⟩
  | some rj =>
      have hmem : rj ∈ st.reps := List.getElem?_mem hj
      rw [dcb_step_copy st j rj hj]
      refine ⟨hnext, hflag, ?_, ?_, ?_, ?_, hff, ?_⟩
      · intro a
        show setF st.heap.cntVal rj.reference_count
            (st.heap.cntVal rj.reference_count + 1) a
          = (DetachedCountedBody.numRefs
              (st.reps ++ [⟨rj.implementation, rj.reference_count⟩]) a : Int)
        rw [dcb_numRefs_append]
        by_cases ha : a = rj.reference_count
        · subst ha
          rw [setF_same, hcons rj.reference_count]
          simp
        · rw [setF_other _ _ _ _ ha, hcons a]
          have : ¬ ((⟨rj.implementation, rj.reference_count⟩ :
              DetachedCountedBody.Representation).reference_count = a) := fun hc =>
            ha hc.symm
          simp [this]
      · intro r hr
        rcases List.mem_append.mp hr with hr1 | hr2
        · exact himpl r hr1
        · rw [List.mem_singleton.mp hr2]
          exact himpl rj hmem
      · intro r hr
        rcases List.mem_append.mp hr with hr1 | hr2
        · exact hrcp r hr1
        · rw [List.mem_singleton.mp hr2]
          exact hrcp rj hmem
      · intro r hr
        rcases List.mem_append.mp hr with hr1 | hr2
        · exact hrcb r hr1
        · rw [List.mem_singleton.mp hr2]
          exact hrcb rj hmem
      · intro r hr h0
        rcases List.mem_append.mp hr with hr1 | hr2
        · exact hnd r hr1 h0
        · rw [List.mem_singleton.mp hr2] at h0 ⊢
          exact hnd rj hmem h0


theorem dcb_numRefs_eraseIdx (reps : List DetachedCountedBody.Representation)
    (i : Nat) (ri : DetachedCountedBody.Representation)
    (hi : reps[i]? = some ri) (a : Nat) :
    DetachedCountedBody.numRefs (reps.eraseIdx i) a
        + (if ri.reference_count = a then 1 else 0)
      = DetachedCountedBody.numRefs reps a := by
  have hlt := (List.getElem?_eq_some.mp hi).1
  have hget := (List.getElem?_eq_some.mp hi).2
  have h := countP_eraseIdx (fun r => r.reference_count == a) reps i hlt
  rw [hget] at h
  simpa [DetachedCountedBody.numRefs, beq_iff_eq] using h

theorem dcb_numRefs_set (reps : List DetachedCountedBody.Representation)
    (i : Nat) (ri v : DetachedCountedBody.Representation)
    (hi : reps[i]? = some ri) (a : Nat) :
    DetachedCountedBody.numRefs (reps.set i v) a
        + (if ri.reference_count = a then 1 else 0)
      = DetachedCountedBody.numRefs reps a
        + (if v.reference_count = a then 1 else 0) := by
  have hlt := (List.getElem?_eq_some.mp hi).1
  have hget := (List.getElem?_eq_some.mp hi).2
  have h := countP_set (fun r => r.reference_count == a) reps i v hlt
  rw [hget] at h
  simpa [DetachedCountedBody.numRefs, beq_iff_eq] using h

theorem dcb_dec_low_paired (H : DetachedCountedBody.Heap)
    (r : DetachedCountedBody.Representation)
    (hc : H.cntVal r.reference_count ≤ 1)
    (hie : r.implementation = r.reference_count)
    (hrc0 : ¬ r.reference_count = 0) :
    (DetachedCountedBody.DecrementReferenceCount H r).1 =
      { H with
          cntVal := setF H.cntVal r.reference_count (H.cntVal r.reference_count - 1)
          objAllocated := setF H.objAllocated r.reference_count false
          objDeallocs := setF H.objDeallocs r.reference_count (H.objDeallocs r.reference_count + 1)
          cntAllocated := setF H.cntAllocated r.reference_count false
          cntDeallocs := setF H.cntDeallocs r.reference_count (H.cntDeallocs r.reference_count + 1) } := by
  rw [dcb_dec_low H r hc, hie]
  unfold DetachedCountedBody.deleteObj DetachedCountedBody.deleteCnt
  simp only [if_neg hrc0]

theorem dcb_dec_low_nulled (H : DetachedCountedBody.Heap)
    (r : DetachedCountedBody.Representation)
    (hc : H.cntVal r.reference_count ≤ 1)
    (hi0 : r.implementation = 0)
    (hrc0 : ¬ r.reference_count = 0) :
    (DetachedCountedBody.DecrementReferenceCount H r).1 =
      { H with
          cntVal := setF H.cntVal r.reference_count (H.cntVal r.reference_count - 1)
          cntAllocated := setF H.cntAllocated r.reference_count false
          cntDeallocs := setF H.cntDeallocs r.reference_count (H.cntDeallocs r.reference_count + 1) } := by
  rw [dcb_dec_low H r hc, hi0]
  unfold DetachedCountedBody.deleteObj DetachedCountedBody.deleteCnt
  simp only [if_neg hrc0]
  simp

theorem dcb_wf_destroy (st : DetachedCountedBody.State) (i : Nat)
    (h : DetachedCountedBody.WF st) :
    DetachedCountedBody.WF (DetachedCountedBody.step st (.destroy i)) := by
  obtain ⟨hnext, hflag, hcons, himpl, hrcp, hrcb, hff, hnd⟩ := h
  cases hi : st.reps[i]? with
  | none =>
      have hstep : DetachedCountedBody.step st (.destroy i) = st := by
        simp [DetachedCountedBody.step, hi]
      rw [hstep]
      exact ⟨hnext, hflag, hcons, himpl, hrcp, hrcb, hff, hnd⟩
  | some ri =>
      have hmem : ri ∈ st.reps := List.getElem?_mem hi
      have hsub : ∀ r ∈ st.reps.eraseIdx i, r ∈ st.reps :=
        fun r hr => (List.eraseIdx_sublist st.reps i).mem hr
      have hrc0 : ¬ ri.reference_count = 0 := by
        have := hrcp ri hmem
        omega
      rw [dcb_step_destroy st i ri hi]
      by_cases hc : 1 < st.heap.cntVal ri.reference_count
      · rw [dcb_dec_high st.heap ri hc]
        refine ⟨hnext, hflag, ?_, fun r hr => himpl r (hsub r hr),
          fun r hr => hrcp r (hsub r hr), fun r hr => hrcb r (hsub r hr),
          hff, fun r hr h0 => hnd r (hsub r hr) h0⟩
        intro a
        have hidx := dcb_numRefs_eraseIdx st.reps i ri hi a
        show setF st.heap.cntVal ri.reference_count
            (st.heap.cntVal ri.reference_count - 1) a
          = (DetachedCountedBody.numRefs (st.reps.eraseIdx i) a : Int)
        by_cases ha : a = ri.reference_count
        · subst ha
          rw [setF_same]
          rw [if_pos rfl] at hidx
          have := hcons ri.reference_count
          omega
        · rw [setF_other _ _ _ _ ha]
          rw [if_neg (fun hx => ha hx.symm)] at hidx
          have := hcons a
          omega
      · have hge : 1 ≤ DetachedCountedBody.numRefs st.reps ri.reference_count :=
          dcb_numRefs_pos st.reps ri hmem
        have hc1 : st.heap.cntVal ri.reference_count = 1 := by
          have := hcons ri.reference_count
          omega
        have hnum1 : DetachedCountedBody.numRefs st.reps ri.reference_count = 1 := by
          have := hcons ri.reference_count
          omega
        rcases himpl ri hmem with hie | hi0
        · rw [dcb_dec_low_paired st.heap ri (by omega) hie hrc0]
          refine ⟨hnext, ?_, ?_, fun r hr => himpl r (hsub r hr),
            fun r hr => hrcp r (hsub r hr), fun r hr => hrcb r (hsub r hr),
            ?_, ?_⟩
          · intro a
            show setF st.heap.objAllocated ri.reference_count false a
              = setF st.heap.cntAllocated ri.reference_count false a
            by_cases ha : a = ri.reference_count
            · subst ha
              rw [setF_same, setF_same]
            · rw [setF_other _ _ _ _ ha, setF_other _ _ _ _ ha]
              exact hflag a
          · intro a
            have hidx := dcb_numRefs_eraseIdx st.reps i ri hi a
            show setF st.heap.cntVal ri.reference_count
                (st.heap.cntVal ri.reference_count - 1) a
              = (DetachedCountedBody.numRefs (st.reps.eraseIdx i) a : Int)
            by_cases ha : a = ri.reference_count
            · subst ha
              rw [setF_same]
              rw [if_pos rfl] at hidx
              have := hcons ri.reference_count
              omega
            · rw [setF_other _ _ _ _ ha]
              rw [if_neg (fun hx => ha hx.symm)] at hidx
              have := hcons a
              omega
          · intro a ha
            have ha2 : st.heap.next ≤ a := ha
            show setF st.heap.cntAllocated ri.reference_count false a = false
            have hlt := hrcb ri hmem
            rw [setF_other _ _ _ _ (by omega)]
            exact hff a ha2
          · intro r hr h0
            show setF st.heap.cntAllocated ri.reference_count false
                r.reference_count = false
            by_cases ha : r.reference_count = ri.reference_count
            · rw [ha, setF_same]
            · rw [setF_other _ _ _ _ ha]
              exact hnd r (hsub r hr) h0
        · rw [dcb_dec_low_nulled st.heap ri (by omega) hi0 hrc0]
          refine ⟨hnext, ?_, ?_, fun r hr => himpl r (hsub r hr),
            fun r hr => hrcp r (hsub r hr), fun r hr => hrcb r (hsub r hr),
            ?_, ?_⟩
          · intro a
            show st.heap.objAllocated a
              = setF st.heap.cntAllocated ri.reference_count false a
            by_cases ha : a = ri.reference_count
            · subst ha
              rw [setF_same, hflag ri.reference_count]
              exact hnd ri hmem hi0
            · rw [setF_other _ _ _ _ ha]
              exact hflag a
          · intro a
            have hidx := dcb_numRefs_eraseIdx st.reps i ri hi a
            show setF st.heap.cntVal ri.reference_count
                (st.heap.cntVal ri.reference_count - 1) a
              = (DetachedCountedBody.numRefs (st.reps.eraseIdx i) a : Int)
            by_cases ha : a = ri.reference_count
            · subst ha
              rw [setF_same]
              rw [if_pos rfl] at hidx
              have := hcons ri.reference_count
              omega
            · rw [setF_other _ _ _ _ ha]
              rw [if_neg (fun hx => ha hx.symm)] at hidx
              have := hcons a
              omega
          · intro a ha
            have ha2 : st.heap.next ≤ a := ha
            show setF st.heap.cntAllocated ri.reference_count false a = false
            have hlt := hrcb ri hmem
            rw [setF_other _ _ _ _ (by omega)]
            exact hff a ha2
          · intro r hr h0
            show setF st.heap.cntAllocated ri.reference_count false
                r.reference_count = false
            by_cases ha : r.reference_count = ri.reference_count
            · rw [ha, setF_same]
            · rw [setF_other _ _ _ _ ha]
              exact hnd r (hsub r hr) h0


theorem dcb_dec_rep_low (H : DetachedCountedBody.Heap)
    (r : DetachedCountedBody.Representation)
    (hc : H.cntVal r.reference_count ≤ 1) :
    (DetachedCountedBody.DecrementReferenceCount H r).2 = ⟨0, r.reference_count⟩ := by
  rw [dcb_dec_low H r hc]

theorem dcb_numRefs_set_mk (reps : List DetachedCountedBody.Representation)
    (i : Nat) (ri : DetachedCountedBody.Representation)
    (hi : reps[i]? = some ri) (x w a : Nat) :
    DetachedCountedBody.numRefs (reps.set i ⟨x, w⟩) a
        + (if ri.reference_count = a then 1 else 0)
      = DetachedCountedBody.numRefs reps a + (if w = a then 1 else 0) :=
  dcb_numRefs_set reps i ri ⟨x, w⟩ hi a

theorem dcb_wf_assign (st : DetachedCountedBody.State) (i j : Nat)
    (h : DetachedCountedBody.WF st) :
    DetachedCountedBody.WF (DetachedCountedBody.step st (.assign i j)) := by
  obtain ⟨hnext, hflag, hcons, himpl, hrcp, hrcb, hff, hnd⟩ := h
  cases hi : st.reps[i]? with
  | none =>
      have hstep : DetachedCountedBody.step st (.assign i j) = st := by
        simp [DetachedCountedBody.step, hi]
      rw [hstep]
      exact ⟨hnext, hflag, hcons, himpl, hrcp, hrcb, hff, hnd⟩
  | some ri =>
  cases hj : st.reps[j]? with
  | none =>
      have hstep : DetachedCountedBody.step st (.assign i j) = st := by
        simp [DetachedCountedBody.step, hi, hj]
      rw [hstep]
      exact ⟨hnext, hflag, hcons, himpl, hrcp, hrcb, hff, hnd⟩
  | some rj0 =>
  have hmemi : ri ∈ st.reps := List.getElem?_mem hi
  have hmemj : rj0 ∈ st.reps := List.getElem?_mem hj
  have hsetmem : ∀ (v r : DetachedCountedBody.Representation),
      r ∈ st.reps.set i v → r ∈ st.reps ∨ r = v :=
    fun v r hr => List.mem_or_eq_of_mem_set hr
  have hrc0 : ¬ ri.reference_count = 0 := by
    have := hrcp ri hmemi
    omega
  have hge : 1 ≤ DetachedCountedBody.numRefs st.reps ri.reference_count :=
    dcb_numRefs_pos st.reps ri hmemi
  by_cases hji : j = i
  · subst hji
    have hrij : rj0 = ri := by
      rw [hi] at hj
      exact (Option.some.inj hj).symm
    subst hrij
    rw [dcb_step_assign_self st j rj0 hi]
    by_cases hc : 1 < st.heap.cntVal rj0.reference_count
    · rw [dcb_dec_high st.heap rj0 hc]
      refine ⟨hnext, hflag, ?_, ?_, ?_, ?_, hff, ?_⟩
      · intro a
        have hca := hcons a
        have hset := dcb_numRefs_set st.reps j rj0 rj0 hi a
        have heq := Nat.add_right_cancel hset
        show setF (setF st.heap.cntVal rj0.reference_count
            (st.heap.cntVal rj0.reference_count - 1)) rj0.reference_count
            (setF st.heap.cntVal rj0.reference_count
              (st.heap.cntVal rj0.reference_count - 1) rj0.reference_count + 1) a
          = (DetachedCountedBody.numRefs (st.reps.set j rj0) a : Int)
        by_cases ha : a = rj0.reference_count
        · rw [ha] at hca heq ⊢
          rw [setF_same, setF_same]
          omega
        · rw [setF_other _ _ _ _ ha, setF_other _ _ _ _ ha]
          omega
      · intro r hr
        rcases hsetmem rj0 r hr with hr1 | hr2
        · exact himpl r hr1
        · rw [hr2]
          exact himpl rj0 hmemi
      · intro r hr
        rcases hsetmem rj0 r hr with hr1 | hr2
        · exact hrcp r hr1
        · rw [hr2]
          exact hrcp rj0 hmemi
      · intro r hr
        rcases hsetmem rj0 r hr with hr1 | hr2
        · exact hrcb r hr1
        · rw [hr2]
          exact hrcb rj0 hmemi
      · intro r hr h0
        rcases hsetmem rj0 r hr with hr1 | hr2
        · exact hnd r hr1 h0
        · rw [hr2] at h0 ⊢
          exact hnd rj0 hmemi h0
    · have hc1 : st.heap.cntVal rj0.reference_count = 1 := by
        have := hcons rj0.reference_count
        omega
      have hnum1 : DetachedCountedBody.numRefs st.reps rj0.reference_count = 1 := by
        have := hcons rj0.reference_count
        omega
      rw [dcb_dec_rep_low st.heap rj0 (by omega)]
      rcases himpl rj0 hmemi with hie | hi0
      · rw [dcb_dec_low_paired st.heap rj0 (by omega) hie hrc0]
        refine ⟨hnext, ?_, ?_, ?_, ?_, ?_, ?_, ?_⟩
        · intro a
          show setF st.heap.objAllocated rj0.reference_count false a
            = setF st.heap.cntAllocated rj0.reference_count false a
          by_cases ha : a = rj0.reference_count
          · rw [ha, setF_same, setF_same]
          · rw [setF_other _ _ _ _ ha, setF_other _ _ _ _ ha]
            exact hflag a
        · intro a
          have hca := hcons a
          have hset := dcb_numRefs_set_mk st.reps j rj0 hi 0 rj0.reference_count a
          have heq := Nat.add_right_cancel hset
          show setF (setF st.heap.cntVal rj0.reference_count
              (st.heap.cntVal rj0.reference_count - 1)) rj0.reference_count
              (setF st.heap.cntVal rj0.reference_count
                (st.heap.cntVal rj0.reference_count - 1) rj0.reference_count + 1) a
            = (DetachedCountedBody.numRefs
                (st.reps.set j ⟨0, rj0.reference_count⟩) a : Int)
          by_cases ha : a = rj0.reference_count
          · rw [ha] at hca heq ⊢
            rw [setF_same, setF_same]
            omega
          · rw [setF_other _ _ _ _ ha, setF_other _ _ _ _ ha]
            omega
        · intro r hr
          rcases hsetmem _ r hr with hr1 | hr2
          · exact himpl r hr1
          · rw [hr2]
            exact Or.inr rfl
        · intro r hr
          rcases hsetmem _ r hr with hr1 | hr2
          · exact hrcp r hr1
          · rw [hr2]
            exact hrcp rj0 hmemi
        · intro r hr
          rcases hsetmem _ r hr with hr1 | hr2
          · exact hrcb r hr1
          · rw [hr2]
            exact hrcb rj0 hmemi
        · intro a ha
          have ha2 : st.heap.next ≤ a := ha
          have hlt := hrcb rj0 hmemi
          show setF st.heap.cntAllocated rj0.reference_count false a = false
          rw [setF_other _ _ _ _ (by omega)]
          exact hff a ha2
        · intro r hr h0
          show setF st.heap.cntAllocated rj0.reference_count false
              r.reference_count = false
          rcases hsetmem _ r hr with hr1 | hr2
          · by_cases ha : r.reference_count = rj0.reference_count
            · rw [ha, setF_same]
            · rw [setF_other _ _ _ _ ha]
              exact hnd r hr1 h0
          · rw [hr2]
            rw [setF_same]
      · rw [dcb_dec_low_nulled st.heap rj0 (by omega) hi0 hrc0]
        refine ⟨hnext, ?_, ?_, ?_, ?_, ?_, ?_, ?_⟩
        · intro a
          show st.heap.objAllocated a
            = setF st.heap.cntAllocated rj0.reference_count false a
          by_cases ha : a = rj0.reference_count
          · rw [ha, setF_same, hflag rj0.reference_count]
            exact hnd rj0 hmemi hi0
          · rw [setF_other _ _ _ _ ha]
            exact hflag a
        · intro a
          have hca := hcons a
          have hset := dcb_numRefs_set_mk st.reps j rj0 hi 0 rj0.reference_count a
          have heq := Nat.add_right_cancel hset
          show setF (setF st.heap.cntVal rj0.reference_count
              (st.heap.cntVal rj0.reference_count - 1)) rj0.reference_count
              (setF st.heap.cntVal rj0.reference_count
                (st.heap.cntVal rj0.reference_count - 1) rj0.reference_count + 1) a
            = (DetachedCountedBody.numRefs
                (st.reps.set j ⟨0, rj0.reference_count⟩) a : Int)
          by_cases ha : a = rj0.reference_count
          · rw [ha] at hca heq ⊢
            rw [setF_same, setF_same]
            omega
          · rw [setF_other _ _ _ _ ha, setF_other _ _ _ _ ha]
            omega
        · intro r hr
          rcases hsetmem _ r hr with hr1 | hr2
          · exact himpl r hr1
          · rw [hr2]
            exact Or.inr rfl
        · intro r hr
          rcases hsetmem _ r hr with hr1 | hr2
          · exact hrcp r hr1
          · rw [hr2]
            exact hrcp rj0 hmemi
        · intro r hr
          rcases hsetmem _ r hr with hr1 | hr2
          · exact hrcb r hr1
          · rw [hr2]
            exact hrcb rj0 hmemi
        · intro a ha
          have ha2 : st.heap.next ≤ a := ha
          have hlt := hrcb rj0 hmemi
          show setF st.heap.cntAllocated rj0.reference_count false a = false
          rw [setF_other _ _ _ _ (by omega)]
          exact hff a ha2
        · intro r hr h0
          show setF st.heap.cntAllocated rj0.reference_count false
              r.reference_count = false
          rcases hsetmem _ r hr with hr1 | hr2
          · by_cases ha : r.reference_count = rj0.reference_count
            · rw [ha, setF_same]
            · rw [setF_other _ _ _ _ ha]
              exact hnd r hr1 h0
          · rw [hr2]
            rw [setF_same]
  · rw [dcb_step_assign_ne st i j ri rj0 hi hj hji]
    by_cases hc : 1 < st.heap.cntVal ri.reference_count
    · rw [dcb_dec_high st.heap ri hc]
      refine ⟨hnext, hflag, ?_, ?_, ?_, ?_, hff, ?_⟩
      · intro a
        have hca := hcons a
        have hset := dcb_numRefs_set_mk st.reps i ri hi
          rj0.implementation rj0.reference_count a
        show setF (setF st.heap.cntVal ri.reference_count
            (st.heap.cntVal ri.reference_count - 1)) rj0.reference_count
            (setF st.heap.cntVal ri.reference_count
              (st.heap.cntVal ri.reference_count - 1) rj0.reference_count + 1) a
          = (DetachedCountedBody.numRefs
              (st.reps.set i ⟨rj0.implementation, rj0.reference_count⟩) a : Int)
        by_cases h1 : a = rj0.reference_count
        · rw [h1] at hca hset ⊢
          rw [if_pos rfl] at hset
          rw [setF_same]
          by_cases hbr : rj0.reference_count = ri.reference_count
          · rw [if_pos hbr.symm] at hset
            rw [hbr] at hca hset ⊢
            rw [setF_same]
            omega
          · have hne3 : ¬ (ri.reference_count = rj0.reference_count) := fun hx => hbr hx.symm
            rw [if_neg hne3] at hset
            rw [setF_other _ _ _ _ hbr]
            omega
        · rw [setF_other _ _ _ _ h1]
          have hne1 : ¬ (rj0.reference_count = a) := fun hx => h1 hx.symm
          rw [if_neg hne1] at hset
          by_cases h2 : a = ri.reference_count
          · rw [h2] at hca hset ⊢
            rw [if_pos rfl] at hset
            rw [setF_same]
            omega
          · rw [setF_other _ _ _ _ h2]
            have hne2 : ¬ (ri.reference_count = a) := fun hx => h2 hx.symm
            rw [if_neg hne2] at hset
            omega
      · intro r hr
        rcases hsetmem _ r hr with hr1 | hr2
        · exact himpl r hr1
        · rw [hr2]
          exact himpl rj0 hmemj
      · intro r hr
        rcases hsetmem _ r hr with hr1 | hr2
        · exact hrcp r hr1
        · rw [hr2]
          exact hrcp rj0 hmemj
      · intro r hr
        rcases hsetmem _ r hr with hr1 | hr2
        · exact hrcb r hr1
        · rw [hr2]
          exact hrcb rj0 hmemj
      · intro r hr h0
        rcases hsetmem _ r hr with hr1 | hr2
        · exact hnd r hr1 h0
        · rw [hr2] at h0 ⊢
          exact hnd rj0 hmemj h0
    · have hc1 : st.heap.cntVal ri.reference_count = 1 := by
        have := hcons ri.reference_count
        omega
      have hnum1 : DetachedCountedBody.numRefs st.reps ri.reference_count = 1 := by
        have := hcons ri.reference_count
        omega
      have hrcne : ¬ rj0.reference_count = ri.reference_count := by
        intro heq2
        have hp2 : 2 ≤ DetachedCountedBody.numRefs st.reps ri.reference_count := by
          rcases Nat.lt_or_ge i j with hij | hij
          · exact countP_pair _ st.reps i j ri rj0 hij hi hj (by simp) (by simp [heq2])
          · have hji2 : j < i := by omega
            exact countP_pair _ st.reps j i rj0 ri hji2 hj hi (by simp [heq2]) (by simp)
        omega
      rcases himpl ri hmemi with hie | hi0
      · rw [dcb_dec_low_paired st.heap ri (by omega) hie hrc0]
        refine ⟨hnext, ?_, ?_, ?_, ?_, ?_, ?_, ?_⟩
        · intro a
          show setF st.heap.objAllocated ri.reference_count false a
            = setF st.heap.cntAllocated ri.reference_count false a
          by_cases ha : a = ri.reference_count
          · rw [ha, setF_same, setF_same]
          · rw [setF_other _ _ _ _ ha, setF_other _ _ _ _ ha]
            exact hflag a
        · intro a
          have hca := hcons a
          have hset := dcb_numRefs_set_mk st.reps i ri hi
            rj0.implementation rj0.reference_count a
          show setF (setF st.heap.cntVal ri.reference_count
              (st.heap.cntVal ri.reference_count - 1)) rj0.reference_count
              (setF st.heap.cntVal ri.reference_count
                (st.heap.cntVal ri.reference_count - 1) rj0.reference_count + 1) a
            = (DetachedCountedBody.numRefs
                (st.reps.set i ⟨rj0.implementation, rj0.reference_count⟩) a : Int)
          by_cases h1 : a = rj0.reference_count
          · rw [h1] at hca hset ⊢
            rw [if_pos rfl] at hset
            have hne4 : ¬ (ri.reference_count = rj0.reference_count) := fun hx => hrcne hx.symm
            rw [if_neg hne4] at hset
            rw [setF_same, setF_other _ _ _ _ hrcne]
            omega
          · rw [setF_other _ _ _ _ h1]
            have hne1 : ¬ (rj0.reference_count = a) := fun hx => h1 hx.symm
            rw [if_neg hne1] at hset
            by_cases h2 : a = ri.reference_count
            · rw [h2] at hca hset ⊢
              rw [if_pos rfl] at hset
              rw [setF_same]
              omega
            · rw [setF_other _ _ _ _ h2]
              have hne2 : ¬ (ri.reference_count = a) := fun hx => h2 hx.symm
              rw [if_neg hne2] at hset
              omega
        · intro r hr
          rcases hsetmem _ r hr with hr1 | hr2
          · exact himpl r hr1
          · rw [hr2]
            exact himpl rj0 hmemj
        · intro r hr
          rcases hsetmem _ r hr with hr1 | hr2
          · exact hrcp r hr1
          · rw [hr2]
            exact hrcp rj0 hmemj
        · intro r hr
          rcases hsetmem _ r hr with hr1 | hr2
          · exact hrcb r hr1
          · rw [hr2]
            exact hrcb rj0 hmemj
        · intro a ha
          have ha2 : st.heap.next ≤ a := ha
          have hlt := hrcb ri hmemi
          show setF st.heap.cntAllocated ri.reference_count false a = false
          rw [setF_other _ _ _ _ (by omega)]
          exact hff a ha2
        · intro r hr h0
          show setF st.heap.cntAllocated ri.reference_count false
              r.reference_count = false
          rcases hsetmem _ r hr with hr1 | hr2
          · by_cases ha : r.reference_count = ri.reference_count
            · rw [ha, setF_same]
            · rw [setF_other _ _ _ _ ha]
              exact hnd r hr1 h0
          · rw [hr2] at h0 ⊢
            rw [setF_other _ _ _ _ hrcne]
            exact hnd rj0 hmemj h0
      · rw [dcb_dec_low_nulled st.heap ri (by omega) hi0 hrc0]
        refine ⟨hnext, ?_, ?_, ?_, ?_, ?_, ?_, ?_⟩
        · intro a
          show st.heap.objAllocated a
            = setF st.heap.cntAllocated ri.reference_count false a
          by_cases ha : a = ri.reference_count
          · rw [ha, setF_same, hflag ri.reference_count]
            exact hnd ri hmemi hi0
          · rw [setF_other _ _ _ _ ha]
            exact hflag a
        · intro a
          have hca := hcons a
          have hset := dcb_numRefs_set_mk st.reps i ri hi
            rj0.implementation rj0.reference_count a
          show setF (setF st.heap.cntVal ri.reference_count
              (st.heap.cntVal ri.reference_count - 1)) rj0.reference_count
              (setF st.heap.cntVal ri.reference_count
                (st.heap.cntVal ri.reference_count - 1) rj0.reference_count + 1) a
            = (DetachedCountedBody.numRefs
                (st.reps.set i ⟨rj0.implementation, rj0.reference_count⟩) a : Int)
          by_cases h1 : a = rj0.reference_count
          · rw [h1] at hca hset ⊢
            rw [if_pos rfl] at hset
            have hne4 : ¬ (ri.reference_count = rj0.reference_count) := fun hx => hrcne hx.symm
            rw [if_neg hne4] at hset
            rw [setF_same, setF_other _ _ _ _ hrcne]
            omega
          · rw [setF_other _ _ _ _ h1]
            have hne1 : ¬ (rj0.reference_count = a) := fun hx => h1 hx.symm
            rw [if_neg hne1] at hset
            by_cases h2 : a = ri.reference_count
            · rw [h2] at hca hset ⊢
              rw [if_pos rfl] at hset
              rw [setF_same]
              omega
            · rw [setF_other _ _ _ _ h2]
              have hne2 : ¬ (ri.reference_count = a) := fun hx => h2 hx.symm
              rw [if_neg hne2] at hset
              omega
        · intro r hr
          rcases hsetmem _ r hr with hr1 | hr2
          · exact himpl r hr1
          · rw [hr2]
            exact himpl rj0 hmemj
        · intro r hr
          rcases hsetmem _ r hr with hr1 | hr2
          · exact hrcp r hr1
          · rw [hr2]
            exact hrcp rj0 hmemj
        · intro r hr
          rcases hsetmem _ r hr with hr1 | hr2
          · exact hrcb r hr1
          · rw [hr2]
            exact hrcb rj0 hmemj
        · intro a ha
          have ha2 : st.heap.next ≤ a := ha
          have hlt := hrcb ri hmemi
          show setF st.heap.cntAllocated ri.reference_count false a = false
          rw [setF_other _ _ _ _ (by omega)]
          exact hff a ha2
        · intro r hr h0
          show setF st.heap.cntAllocated ri.reference_count false
              r.reference_count = false
          rcases hsetmem _ r hr with hr1 | hr2
          · by_cases ha : r.reference_count = ri.reference_count
            · rw [ha, setF_same]
            · rw [setF_other _ _ _ _ ha]
              exact hnd r hr1 h0
          · rw [hr2] at h0 ⊢
            rw [setF_other _ _ _ _ hrcne]
            exact hnd rj0 hmemj h0


theorem dcb_wf_step (st : DetachedCountedBody.State) (op : Op)
    (h : DetachedCountedBody.WF st) :
    DetachedCountedBody.WF (DetachedCountedBody.step st op) := by
  cases op with
  | fresh => exact dcb_wf_fresh st h
  | copy j => exact dcb_wf_copy st j h
  | assign i j => exact dcb_wf_assign st i j h
  | destroy i => exact dcb_wf_destroy st i h

theorem dcb_wf_init : DetachedCountedBody.WF DetachedCountedBody.init := by
  refine ⟨?_, ?_, ?_, ?_, ?_, ?_, ?_, ?_⟩ <;>
    simp [DetachedCountedBody.init, DetachedCountedBody.emptyHeap,
      DetachedCountedBody.numRefs]

theorem dcb_wf_run (ops : List Op) :
    DetachedCountedBody.WF (DetachedCountedBody.run ops) := by
  have hfold : ∀ (l : List Op) (st : DetachedCountedBody.State),
      DetachedCountedBody.WF st →
      DetachedCountedBody.WF (List.foldl DetachedCountedBody.step st l) := by
    intro l
    induction l with
    | nil => exact fun st hst => hst
    | cons op t ih => exact fun st hst => ih _ (dcb_wf_step st op hst)
  exact hfold ops DetachedCountedBody.init dcb_wf_init

theorem dcb_step_flip (st : DetachedCountedBody.State) (op : Op) (a : Nat)
    (h : DetachedCountedBody.WF st)
    (hpre : st.heap.objAllocated a = true)
    (hpost : (DetachedCountedBody.step st op).heap.objAllocated a = false) :
    st.heap.cntVal a = 1 ∧
    (DetachedCountedBody.step st op).heap.cntAllocated a = false := by
  obtain ⟨hnext, hflag, hcons, himpl, hrcp, hrcb, hff, hnd⟩ := h
  cases op with
  | fresh =>
      exfalso
      rw [dcb_step_fresh] at hpost
      by_cases ha : a = st.heap.next
      · have h1 : st.heap.cntAllocated st.heap.next = false :=
          hff st.heap.next (Nat.le_refl _)
        rw [ha, hflag st.heap.next, h1] at hpre
        simp at hpre
      · have hpost2 : setF st.heap.objAllocated st.heap.next true a = false := hpost
        rw [setF_other _ _ _ _ ha, hpre] at hpost2
        simp at hpost2
  | copy j =>
      exfalso
      cases hjj : st.reps[j]? with
      | none =>
          have hstep : DetachedCountedBody.step st (.copy j) = st := by
            simp [DetachedCountedBody.step, hjj]
          rw [hstep] at hpost
          rw [hpre] at hpost
          simp at hpost
      | some rj =>
          rw [dcb_step_copy st j rj hjj] at hpost
          have hpost2 : st.heap.objAllocated a = false := hpost
          rw [hpre] at hpost2
          simp at hpost2
  | destroy i =>
      cases hii : st.reps[i]? with
      | none =>
          exfalso
          have hstep : DetachedCountedBody.step st (.destroy i) = st := by
            simp [DetachedCountedBody.step, hii]
          rw [hstep] at hpost
          rw [hpre] at hpost
          simp at hpost
      | some ri =>
          have hmemi : ri ∈ st.reps := List.getElem?_mem hii
          have hrc0 : ¬ ri.reference_count = 0 := by
            have := hrcp ri hmemi
            omega
          rw [dcb_step_destroy st i ri hii] at hpost ⊢
          by_cases hc : 1 < st.heap.cntVal ri.reference_count
          · exfalso
            rw [dcb_dec_high st.heap ri hc] at hpost
            have hpost2 : st.heap.objAllocated a = false := hpost
            rw [hpre] at hpost2
            simp at hpost2
          · have hc1 : st.heap.cntVal ri.reference_count = 1 := by
              have h1 := hcons ri.reference_count
              have h2 := dcb_numRefs_pos st.reps ri hmemi
              omega
            rcases himpl ri hmemi with hie | hi0
            · rw [dcb_dec_low_paired st.heap ri (by omega) hie hrc0] at hpost ⊢
              have hpost2 : setF st.heap.objAllocated ri.reference_count
                  false a = false := hpost
              by_cases ha : a = ri.reference_count
              · refine ⟨?_, ?_⟩
                · rw [ha]
                  exact hc1
                · show setF st.heap.cntAllocated ri.reference_count false a = false
                  rw [ha, setF_same]
              · exfalso
                rw [setF_other _ _ _ _ ha, hpre] at hpost2
                simp at hpost2
            · exfalso
              rw [dcb_dec_low_nulled st.heap ri (by omega) hi0 hrc0] at hpost
              have hpost2 : st.heap.objAllocated a = false := hpost
              rw [hpre] at hpost2
              simp at hpost2
  | assign i j =>
      cases hii : st.reps[i]? with
      | none =>
          exfalso
          have hstep : DetachedCountedBody.step st (.assign i j) = st := by
            simp [DetachedCountedBody.step, hii]
          rw [hstep] at hpost
          rw [hpre] at hpost
          simp at hpost
      | some ri =>
      cases hjj : st.reps[j]? with
      | none =>
          exfalso
          have hstep : DetachedCountedBody.step st (.assign i j) = st := by
            simp [DetachedCountedBody.step, hii, hjj]
          rw [hstep] at hpost
          rw [hpre] at hpost
          simp at hpost
      | some rj0 =>
      have hmemi : ri ∈ st.reps := List.getElem?_mem hii
      have hrc0 : ¬ ri.reference_count = 0 := by
        have := hrcp ri hmemi
        omega
      by_cases hji : j = i
      · subst hji
        have hrij : rj0 = ri := by
          rw [hii] at hjj
          exact (Option.some.inj hjj).symm
        subst hrij
        rw [dcb_step_assign_self st j rj0 hii] at hpost ⊢
        by_cases hc : 1 < st.heap.cntVal rj0.reference_count
        · exfalso
          rw [dcb_dec_high st.heap rj0 hc] at hpost
          have hpost2 : st.heap.objAllocated a = false := hpost
          rw [hpre] at hpost2
          simp at hpost2
        · have hc1 : st.heap.cntVal rj0.reference_count = 1 := by
            have h1 := hcons rj0.reference_count
            have h2 := dcb_numRefs_pos st.reps rj0 hmemi
            omega
          rcases himpl rj0 hmemi with hie | hi0
          · rw [dcb_dec_rep_low st.heap rj0 (by omega),
              dcb_dec_low_paired st.heap rj0 (by omega) hie hrc0] at hpost ⊢
            have hpost2 : setF st.heap.objAllocated rj0.reference_count
                false a = false := hpost
            by_cases ha : a = rj0.reference_count
            · refine ⟨?_, ?_⟩
              · rw [ha]
                exact hc1
              · show setF st.heap.cntAllocated rj0.reference_count false a = false
                rw [ha, setF_same]
            · exfalso
              rw [setF_other _ _ _ _ ha, hpre] at hpost2
              simp at hpost2
          · exfalso
            rw [dcb_dec_rep_low st.heap rj0 (by omega),
              dcb_dec_low_nulled st.heap rj0 (by omega) hi0 hrc0] at hpost
            have hpost2 : st.heap.objAllocated a = false := hpost
            rw [hpre] at hpost2
            simp at hpost2
      · rw [dcb_step_assign_ne st i j ri rj0 hii hjj hji] at hpost ⊢
        by_cases hc : 1 < st.heap.cntVal ri.reference_count
        · exfalso
          rw [dcb_dec_high st.heap ri hc] at hpost
          have hpost2 : st.heap.objAllocated a = false := hpost
          rw [hpre] at hpost2
          simp at hpost2
        · have hc1 : st.heap.cntVal ri.reference_count = 1 := by
            have h1 := hcons ri.reference_count
            have h2 := dcb_numRefs_pos st.reps ri hmemi
            omega
          rcases himpl ri hmemi with hie | hi0
          · rw [dcb_dec_low_paired st.heap ri (by omega) hie hrc0] at hpost ⊢
            have hpost2 : setF st.heap.objAllocated ri.reference_count
                false a = false := hpost
            by_cases ha : a = ri.reference_count
            · refine ⟨?_, ?_⟩
              · rw [ha]
                exact hc1
              · show setF st.heap.cntAllocated ri.reference_count false a = false
                rw [ha, setF_same]
            · exfalso
              rw [setF_other _ _ _ _ ha, hpre] at hpost2
              simp at hpost2
          · exfalso
            rw [dcb_dec_low_nulled st.heap ri (by omega) hi0 hrc0] at hpost
            have hpost2 : st.heap.objAllocated a = false := hpost
            rw [hpre] at hpost2
            simp at hpost2

/-- C6: in the detached variant, for every operation sequence, the group's
Payload and its ShareCount cell live and die together: in every reachable
state the two allocation flags agree at every paired address (no Handle
ever observes the ShareCount freed while the Payload is allocated or vice
versa), and whenever a further operation deallocates a Payload, the state
before it holds that cell at value exactly 1 (the operation is the 1 → 0
transition) and the ShareCount cell is deallocated in that same
operation. -/
theorem claim_C6_payload_and_count_die_together (ops : List Op) (a : Nat) :
    ((DetachedCountedBody.run ops).heap.objAllocated a
        = (DetachedCountedBody.run ops).heap.cntAllocated a) ∧
    (∀ op : Op,
      (DetachedCountedBody.run ops).heap.objAllocated a = true →
      (DetachedCountedBody.step (DetachedCountedBody.run ops) op).heap.objAllocated a
          = false →
      (DetachedCountedBody.run ops).heap.cntVal a = 1 ∧
      (DetachedCountedBody.step (DetachedCountedBody.run ops) op).heap.cntAllocated a
          = false) :=
  ⟨(dcb_wf_run ops).flagEq a,
   fun op hpre hpost =>
     dcb_step_flip (DetachedCountedBody.run ops) op a (dcb_wf_run ops) hpre hpost⟩

/-- Witness for C6: the single fresh group (count cell at value 1),
destroyed by its only handle. -/
theorem claim_C6_witness :
    (DetachedCountedBody.run [Op.fresh]).heap.objAllocated 1 = true ∧
    (DetachedCountedBody.step (DetachedCountedBody.run [Op.fresh])
        (Op.destroy 0)).heap.objAllocated 1 = false ∧
    (DetachedCountedBody.run [Op.fresh]).heap.cntVal 1 = 1 ∧
    (DetachedCountedBody.step (DetachedCountedBody.run [Op.fresh])
        (Op.destroy 0)).heap.cntAllocated 1 = false :=
  ⟨by decide, by decide,
   ((claim_C6_payload_and_count_die_together [Op.fresh] 1).2 (Op.destroy 0)
      (by decide) (by decide)).1,
   ((claim_C6_payload_and_count_die_together [Op.fresh] 1).2 (Op.destroy 0)
      (by decide) (by decide)).2⟩

end CleanCode
